import Mathlib

/-
  Verification of the Human_monitoring_system core pipeline.

  Shallow embedding of:
    - PersonTracker (include/detection/human_detector.hpp)
    - FallDetector (include/detection/fall_detector.hpp)
    - NotificationManager (src/network/notification_manager.cpp)
    - Camera::getFrame (src/core/camera.cpp)

  Conventions:
    - C++ int is modelled as Int (no modelled code path can overflow on the
      inputs the claims range over).
    - double / float arithmetic on box coordinates is modelled over the
      rationals; all modelled comparisons are exact on the integer-valued
      inputs the code manipulates.
    - std::map is modelled as a key-indexed function where no modelled
      operation observes iteration order.
    - External capabilities (camera capture, SMS/email transport, response
      polling, the user store) are modelled as explicit oracle parameters.
-/

namespace HMS

/-- Bounding box with integer coordinates, mirroring cv::Rect. -/
structure Rect where
  x : Int
  y : Int
  width : Int
  height : Int
deriving DecidableEq

/-- PersonTracker::calculateIoU from human_detector.hpp.  The C++ computes in
double; the model computes in ℚ (exact on these integer inputs; the single
divergence is 0.0/0.0, NaN in C++, 0 in ℚ — either value differs from 1.0). -/
def calculateIoU (box1 box2 : Rect) : ℚ :=
  let x1 := max box1.x box2.x
  let y1 := max box1.y box2.y
  let x2 := min (box1.x + box1.width) (box2.x + box2.width)
  let y2 := min (box1.y + box1.height) (box2.y + box2.height)
  if x2 < x1 ∨ y2 < y1 then 0
  else
    let intersectionArea : ℚ := ((x2 - x1) * (y2 - y1) : Int)
    let box1Area : ℚ := ((box1.width * box1.height : Int) : ℚ)
    let box2Area : ℚ := ((box2.width * box2.height : Int) : ℚ)
    intersectionArea / (box1Area + box2Area - intersectionArea)

/-- A point of the plane lies strictly inside a rectangle. -/
def Rect.containsInterior (r : Rect) (px py : ℚ) : Prop :=
  (r.x : ℚ) < px ∧ px < ((r.x + r.width : Int) : ℚ) ∧
  (r.y : ℚ) < py ∧ py < ((r.y + r.height : Int) : ℚ)

/-- Two rectangles are disjoint when no point lies strictly inside both. -/
def Rect.disjoint (a b : Rect) : Prop :=
  ∀ px py : ℚ, ¬(a.containsInterior px py ∧ b.containsInterior px py)

/-- Detected person, mirroring hms::DetectedPerson.  Only the fields read by
the modelled operations (PersonTracker, FallDetector) are kept: confidence,
keypoints, appearance, isFallen, color and name are never read by them. -/
structure DetectedPerson where
  id : Int
  boundingBox : Rect
deriving DecidableEq

/-- Recursion underlying PersonTracker::matchDetection: scan the tracks,
keeping the index of the strictly largest IoU seen so far above the initial
threshold 0.3 (strict comparison, so the first maximum wins ties). -/
def matchDetectionAux (detection : Rect) :
    List DetectedPerson → Nat → ℚ → Option Nat → Option Nat
  | [], _, _, bestMatch => bestMatch
  | track :: rest, i, maxIoU, bestMatch =>
    let iou := calculateIoU detection track.boundingBox
    if iou > maxIoU then matchDetectionAux detection rest (i + 1) iou (some i)
    else matchDetectionAux detection rest (i + 1) maxIoU bestMatch

/-- PersonTracker::matchDetection: index of the existing track with the
highest IoU exceeding 0.3, none if no track exceeds the threshold. -/
def matchDetection (detection : Rect) (existingTracks : List DetectedPerson) :
    Option Nat :=
  matchDetectionAux detection existingTracks 0 (3 / 10) none

/-- First loop of PersonTracker::update: for each detection in order, find the
best matching track; on a match the detection takes the track id and the
track slot is (re)bound to that detection — a later detection overwrites an
earlier binding of the same slot, exactly as `assignedTracks[bestTrackIdx] = i`
does in the C++.  Returns the detections paired with their matched flag,
together with the final slot assignment. -/
def runMatching (tracks : List DetectedPerson) :
    List DetectedPerson → List (Option DetectedPerson) →
    List (DetectedPerson × Bool) × List (Option DetectedPerson)
  | [], assigned => ([], assigned)
  | d :: rest, assigned =>
    match matchDetection d.boundingBox tracks with
    | some t =>
      let d1 := match tracks.get? t with
        | some tr => { d with id := tr.id }
        | none => d
      let res := runMatching tracks rest (assigned.set t (some d1))
      ((d1, true) :: res.1, res.2)
    | none =>
      let res := runMatching tracks rest assigned
      ((d, false) :: res.1, res.2)

/-- Second loop of PersonTracker::update: unmatched detections receive fresh
ids from the `m_nextId++` counter.  Returns the final detections vector, the
list of newly created tracks (in detection order), and the new counter. -/
def assignNewIds : Int → List (DetectedPerson × Bool) →
    List DetectedPerson × List DetectedPerson × Int
  | n, [] => ([], [], n)
  | n, (d, matched) :: rest =>
    if matched then
      let res := assignNewIds n rest
      (d :: res.1, res.2.1, res.2.2)
    else
      let d1 := { d with id := n }
      let res := assignNewIds (n + 1) rest
      (d1 :: res.1, d1 :: res.2.1, res.2.2)

/-- State of a PersonTracker: `m_trackedPersons` and `m_nextId`. -/
structure TrackerState where
  trackedPersons : List DetectedPerson
  nextId : Int
deriving DecidableEq

/-- The freshly constructed tracker: PersonTracker() : m_nextId(0). -/
def initialTracker : TrackerState := ⟨[], 0⟩

/-- PersonTracker::update.  The C++ mutates the caller's detections vector in
place and replaces `m_trackedPersons`; the model returns the updated
detections vector (the tick's output seen by the caller) together with the
new tracker state.  The new tracked list is the matched slots in track order
(`detections[assignedTracks[i]]`, whose ids were already set when the slot
was bound and which the second loop never touches) followed by the new
tracks for unmatched detections. -/
def PersonTracker.update (s : TrackerState) (detections : List DetectedPerson) :
    List DetectedPerson × TrackerState :=
  if s.trackedPersons = [] then
    let res := assignNewIds s.nextId (detections.map (fun d => (d, false)))
    (res.1, ⟨res.1, res.2.2⟩)
  else
    let m := runMatching s.trackedPersons detections
      (List.replicate s.trackedPersons.length none)
    let res := assignNewIds s.nextId m.1
    (res.1, ⟨m.2.filterMap id ++ res.2.1, res.2.2⟩)

/-- A sequence of update calls: returns the per-tick output vectors and the
final tracker state. -/
def runTracker : TrackerState → List (List DetectedPerson) →
    List (List DetectedPerson) × TrackerState
  | s, [] => ([], s)
  | s, ds :: rest =>
    let r := PersonTracker.update s ds
    let res := runTracker r.2 rest
    (r.1 :: res.1, res.2)

/-- Frame dimensions, mirroring the cv::Mat cols/rows read by the modelled
code (pixel contents are never inspected by it). -/
structure Frame where
  cols : Int
  rows : Int
deriving DecidableEq

/-- FallEvent from fall_detector.hpp.  Time points are seconds on the steady
clock, modelled as Nat; the saved frameSnapshot is the clipped ROI rectangle
(none when the clip is degenerate and no snapshot is taken). -/
structure FallEvent where
  personId : Int
  startTime : Nat
  alerted : Bool
  frameSnapshot : Option Rect
  position : Rect
deriving DecidableEq

/-- State of a FallDetector: `m_fallEvents` (std::map keyed by person id,
modelled as a key-indexed function since no modelled operation observes
iteration order), `m_newAlerts` and `m_fallDurationThreshold`. -/
structure FallDetectorState where
  fallEvents : Int → Option FallEvent
  newAlerts : List Int
  fallDurationThreshold : Int

/-- FallDetector::isPersonOnGround: bounding-box aspect ratio width/height
strictly above 1.5 (float division modelled over ℚ). -/
def isPersonOnGround (person : DetectedPerson) : Bool :=
  decide (((person.boundingBox.width : ℚ) / (person.boundingBox.height : ℚ)) > 3 / 2)

/-- The ROI clipping of FallDetector::analyze when a new fall event saves its
snapshot: clamp the box to the frame, keep it only when non-degenerate. -/
def snapOf (frame : Frame) (person : DetectedPerson) : Option Rect :=
  let rx := max 0 person.boundingBox.x
  let ry := max 0 person.boundingBox.y
  let rw := min person.boundingBox.width (frame.cols - rx)
  let rh := min person.boundingBox.height (frame.rows - ry)
  if rw > 0 ∧ rh > 0 then some (Rect.mk rx ry rw rh) else none

/-- Body of the per-person loop of FallDetector::analyze: create or update the
fall event of a person on the ground (raising the alert when the elapsed
duration reaches the threshold and the event is not yet alerted), erase the
event of a person who is not. -/
def processPerson (frame : Frame) (now : Nat) (s : FallDetectorState)
    (person : DetectedPerson) : FallDetectorState :=
  if isPersonOnGround person then
    match s.fallEvents person.id with
    | none =>
      let event : FallEvent := ⟨person.id, now, false, snapOf frame person, person.boundingBox⟩
      { s with fallEvents := fun k =>
          if k = person.id then some event else s.fallEvents k }
    | some ev =>
      let ev1 := { ev with position := person.boundingBox }
      let duration : Int := ((now - ev1.startTime : Nat) : Int)
      if duration ≥ s.fallDurationThreshold ∧ ev1.alerted = false then
        { s with
          fallEvents := fun k =>
            if k = person.id then some { ev1 with alerted := true }
            else s.fallEvents k,
          newAlerts := s.newAlerts ++ [person.id] }
      else
        { s with fallEvents := fun k =>
            if k = person.id then some ev1 else s.fallEvents k }
  else
    if (s.fallEvents person.id).isSome then
      { s with fallEvents := fun k =>
          if k = person.id then none else s.fallEvents k }
    else s

/-- FallDetector::analyze: clear `m_newAlerts`, process every detected person
in order, then drop the events of people absent from this tick's detection
set. -/
def analyze (s : FallDetectorState) (persons : List DetectedPerson)
    (frame : Frame) (now : Nat) : FallDetectorState :=
  let activePeople := persons.map (fun p => p.id)
  let s1 := persons.foldl (processPerson frame now) { s with newAlerts := [] }
  { s1 with fallEvents := fun k =>
      if activePeople.contains k then s1.fallEvents k else none }

/-- FallDetector::getNewAlerts: returns `m_newAlerts` as it stands.  The C++
body is a plain `return m_newAlerts;` — it does not clear the member. -/
def getNewAlerts (s : FallDetectorState) : List Int × FallDetectorState :=
  (s.newAlerts, s)

/-- A sequence of analyze calls, each tick supplying its detections and its
steady-clock time. -/
def runAnalyze (frame : Frame) : FallDetectorState →
    List (List DetectedPerson × Nat) → FallDetectorState
  | s, [] => s
  | s, t :: rest => runAnalyze frame (analyze s t.1 frame t.2) rest

/-- EmergencyContact record from user_database.hpp. -/
structure EmergencyContact where
  name : String
  phone : String
  email : String
  address : String
  relationship : String
deriving DecidableEq

/-- Doctor record from user_database.hpp. -/
structure Doctor where
  name : String
  phone : String
  email : String
  address : String
  specialization : String
deriving DecidableEq

/-- User record from user_database.hpp (notes and imageReference are never
read by the notification code). -/
structure User where
  id : Int
  name : String
  emergencyContacts : List EmergencyContact
  familyDoctor : Doctor
deriving DecidableEq

/-- NotificationStatus enumeration from notification_manager.hpp. -/
inductive NotificationStatus where
  | PENDING
  | SENT
  | DELIVERED
  | READ
  | RESPONDED
  | FAILED
deriving DecidableEq

/-- NotificationMessage from notification_manager.hpp; system_clock time
points are modelled as Nat (a default-constructed time point is 0). -/
structure NotificationMessage where
  userId : Int
  personId : Int
  message : String
  timestamp : Nat
  status : NotificationStatus
  responseMessage : String
  responseTimestamp : Nat
deriving DecidableEq

/-- Shared state of the NotificationManager: the FIFO queue (front at the
head) and the active-notification map keyed by (userId, personId), modelled
as a key-indexed function since no modelled operation observes map order. -/
structure NMState where
  notificationQueue : List NotificationMessage
  activeNotifications : Int × Int → Option NotificationMessage

/-- The freshly constructed NotificationManager: empty queue, empty map. -/
def initialNM : NMState := ⟨[], fun _ => none⟩

/-- NotificationManager::notifyFallEvent.  The user store is the oracle `db`
(UserDatabase::getUserById, which returns the sentinel record with id -1
when the user is missing); `now` is the system-clock second at which the
call runs.  One PENDING message per emergency contact is pushed onto the
queue and, inside that same loop, stored under the (userId, personId) key of
the active map; a doctor message is queued afterwards but never stored in
the map.  The message body does not depend on the contact. -/
def notifyFallEvent (db : Int → User) (s : NMState) (fallEvent : FallEvent)
    (userId : Int) (now : Nat) : NMState :=
  let user := db userId
  if user.id = -1 then s
  else
    let message := "EMERGENCY ALERT: " ++ user.name ++
      " has fallen and may need assistance. This alert was triggered at " ++
      toString now ++
      ". Please respond to this message to confirm you are taking action."
    let base : NotificationMessage :=
      ⟨userId, fallEvent.personId, message, now, NotificationStatus.PENDING, "", 0⟩
    let s1 := user.emergencyContacts.foldl
      (fun acc _contact =>
        { acc with
          notificationQueue := acc.notificationQueue ++ [base],
          activeNotifications := fun k =>
            if k = (userId, fallEvent.personId) then some base
            else acc.activeNotifications k }) s
    if user.familyDoctor.name ≠ "" then
      { s1 with notificationQueue := s1.notificationQueue ++
          [{ base with message := message ++ " (Medical assistance may be required)" }] }
    else s1

/-- One iteration of NotificationManager::notificationThreadFunc once the
wait has been passed: pop the front message, look its user up, attempt the
transport for every contact (SMS when the phone is nonempty, email when the
email is nonempty; the oracles give each attempt's outcome), send to the
doctor ignoring the results, then set the stored status of the message's key
to SENT when at least one contact send succeeded, else FAILED, if that key
is present.  A missing user skips the sends and the status update; an empty
queue is a no-op (the thread keeps waiting). -/
def notificationStep (db : Int → User) (smsOk emailOk : String → Bool)
    (s : NMState) : NMState :=
  match s.notificationQueue with
  | [] => s
  | notification :: rest =>
    let s1 : NMState := ⟨rest, s.activeNotifications⟩
    let user := db notification.userId
    if user.id = -1 then s1
    else
      let notificationSent := user.emergencyContacts.foldl
        (fun acc contact =>
          let acc1 := if contact.phone ≠ "" ∧ smsOk contact.phone then true else acc
          if contact.email ≠ "" ∧ emailOk contact.email then true else acc1)
        false
      { s1 with activeNotifications := fun k =>
          if k = (notification.userId, notification.personId) then
            match s1.activeNotifications k with
            | some m => some { m with status :=
                if notificationSent then NotificationStatus.SENT
                else NotificationStatus.FAILED }
            | none => none
          else s1.activeNotifications k }

/-- One pass of NotificationManager::checkForResponses: every stored message
whose status is SENT, DELIVERED or READ and for which the response oracle
reports a response moves to RESPONDED with the canned response body and the
current time (the 10% random draw of the simulated inbox is the oracle). -/
def checkForResponses (respond : Int × Int → Bool) (s : NMState) (now : Nat) :
    NMState :=
  { s with activeNotifications := fun k =>
      match s.activeNotifications k with
      | none => none
      | some m =>
        if (m.status = NotificationStatus.SENT ∨
            m.status = NotificationStatus.DELIVERED ∨
            m.status = NotificationStatus.READ) ∧ respond k then
          some { m with status := NotificationStatus.RESPONDED,
                        responseMessage := "I\x27m on my way to help. ETA 10 minutes.",
                        responseTimestamp := now }
        else some m }

/-- One step of the NotificationManager: a notifyFallEvent call, one delivery
iteration, or one response-check pass, with the respective oracle inputs. -/
inductive NMStep : NMState → NMState → Prop where
  | notify (db : Int → User) (fallEvent : FallEvent) (userId : Int) (now : Nat)
      (s : NMState) : NMStep s (notifyFallEvent db s fallEvent userId now)
  | deliver (db : Int → User) (smsOk emailOk : String → Bool) (s : NMState) :
      NMStep s (notificationStep db smsOk emailOk s)
  | respond (oracle : Int × Int → Bool) (now : Nat) (s : NMState) :
      NMStep s (checkForResponses oracle s now)

/-- Observable side effects of Camera::getFrame, in order: an attempt to open
the capture source, and a sleep of the given number of seconds. -/
inductive CamEvent where
  | openAttempt
  | sleepSeconds (n : Nat)
deriving DecidableEq

/-- State of a Camera: the `m_connected` flag and whether the underlying
cv::VideoCapture is open. -/
structure CameraState where
  connected : Bool
  captureOpen : Bool
deriving DecidableEq

/-- Camera::connect.  Already connected returns true without touching the
capture; otherwise one open attempt is made, whose outcome is the `openOk`
oracle (a failed open leaves the capture closed and the camera
disconnected).  Returns the C++ return value, the new state and the event
log. -/
def Camera.connect (s : CameraState) (openOk : Bool) :
    Bool × CameraState × List CamEvent :=
  if s.connected then (true, s, [])
  else if openOk then (true, ⟨true, true⟩, [CamEvent.openAttempt])
  else (false, ⟨false, false⟩, [CamEvent.openAttempt])

/-- Camera::disconnect: a no-op returning true when not connected, otherwise
releases the capture and clears the flag. -/
def Camera.disconnect (s : CameraState) : Bool × CameraState :=
  if !s.connected then (true, s)
  else (true, ⟨false, false⟩)

/-- Camera::getFrame.  `openOk1` is the outcome of the open attempted when the
session starts disconnected; `readResult` is the capture read outcome (none
is a failed read, the returned frame staying empty); `openOk2` is the
outcome of the open inside the failure path.  On a read failure the session
clears `m_connected`, calls disconnect (a no-op, the flag being already
clear), sleeps one second, attempts exactly one reconnect and returns the
empty frame.  Returns the frame, the final state and the event log. -/
def Camera.getFrame (s : CameraState) (openOk1 : Bool)
    (readResult : Option Frame) (openOk2 : Bool) :
    Option Frame × CameraState × List CamEvent :=
  if s.connected then
    match readResult with
    | some f => (some f, s, [])
    | none =>
      let s1 : CameraState := ⟨false, s.captureOpen⟩
      let d := Camera.disconnect s1
      let c := Camera.connect d.2 openOk2
      (none, c.2.1, CamEvent.sleepSeconds 1 :: c.2.2)
  else
    let c1 := Camera.connect s openOk1
    if c1.1 = false then (none, c1.2.1, c1.2.2)
    else
      match readResult with
      | some f => (some f, c1.2.1, c1.2.2)
      | none =>
        let s1 : CameraState := ⟨false, c1.2.1.captureOpen⟩
        let d := Camera.disconnect s1
        let c := Camera.connect d.2 openOk2
        (none, c.2.1, c1.2.2 ++ CamEvent.sleepSeconds 1 :: c.2.2)

/-- A tick's detection set contains exactly one occurrence of the given
person id and that occurrence satisfies the on-ground predicate. -/
def uniqueFallen (id : Int) (persons : List DetectedPerson) : Bool :=
  match persons.filter (fun q => decide (q.id = id)) with
  | [p] => isPersonOnGround p
  | _ => false

/-- Value of the fall-event map at a person's key after that person's loop
iteration in FallDetector::analyze, as a function of the entry before it. -/
def keyAfterProcess (th : Int) (frame : Frame) (now : Nat)
    (cur : Option FallEvent) (p : DetectedPerson) : Option FallEvent :=
  if isPersonOnGround p then
    match cur with
    | none => some ⟨p.id, now, false, snapOf frame p, p.boundingBox⟩
    | some ev =>
      if ((now - ev.startTime : Nat) : Int) ≥ th ∧ ev.alerted = false then
        some { ev with position := p.boundingBox, alerted := true }
      else some { ev with position := p.boundingBox }
  else none

/-- Condition under which a person's loop iteration appends the person's id
to `m_newAlerts`: the on-ground branch found an existing, not yet alerted
event whose elapsed duration reaches the threshold. -/
def alertCond (th : Int) (now : Nat) (cur : Option FallEvent)
    (p : DetectedPerson) : Prop :=
  isPersonOnGround p = true ∧
  ∃ ev, cur = some ev ∧ ((now - ev.startTime : Nat) : Int) ≥ th ∧
    ev.alerted = false

/-- Ids of the tracked-person lists a tracker run has output so far. -/
def outputIds (outs : List (List DetectedPerson)) : List Int :=
  (outs.flatten).map (fun p => p.id)

/-- Fall-detector state used by concrete counterexamples: empty event map,
clear alert list, zero-second threshold. -/
def fdEmpty : FallDetectorState := ⟨fun _ => none, [], 0⟩

/-- A person lying down: box 30 wide by 10 tall (aspect ratio 3). -/
def fallenP : DetectedPerson := ⟨1, ⟨0, 0, 30, 10⟩⟩

/-- Test frame dimensions. -/
def frame0 : Frame := ⟨640, 480⟩

/-- Fall-detector state after two ticks of the fallen person at times 0 and 1
under a zero-second threshold: the second tick alerts person 1. -/
def fdTwoTicks : FallDetectorState :=
  analyze (analyze fdEmpty [fallenP] frame0 0) [fallenP] frame0 1

/-- The all-empty doctor record. -/
def noDoctor : Doctor := ⟨"", "", "", "", ""⟩

/-- The sentinel record UserDatabase::getUserById returns for a missing user. -/
def missingUser : User := ⟨-1, "", [], noDoctor⟩

/-- User store holding one user (id 7) with two phone-only emergency contacts
and no family doctor. -/
def dbTwoContacts : Int → User := fun i =>
  if i = 7 then
    ⟨7, "Alice", [⟨"c1", "111", "", "", ""⟩, ⟨"c2", "222", "", "", ""⟩], noDoctor⟩
  else missingUser

/-- User store holding one user (id 9) with no emergency contacts but a named
family doctor. -/
def dbDoctorOnly : Int → User := fun i =>
  if i = 9 then ⟨9, "Bob", [], ⟨"Dr", "5", "", "", ""⟩⟩ else missingUser

/-- A fall event of person 3, used by the notification examples. -/
def fe3 : FallEvent := ⟨3, 0, true, none, ⟨0, 0, 30, 10⟩⟩

/-- State after notifying the fall of person 3 to user 7: two messages
queued, the (7, 3) entry PENDING. -/
def nmAfterNotify : NMState := notifyFallEvent dbTwoContacts initialNM fe3 7 0

/-- State after the delivery worker processes the first queued message with
both transports succeeding: the (7, 3) entry moves to SENT. -/
def nmAfterFirstSend : NMState :=
  notificationStep dbTwoContacts (fun _ => true) (fun _ => true) nmAfterNotify

/-- State after a response-check pass in which the oracle reports a response:
the (7, 3) entry moves to RESPONDED. -/
def nmAfterResponse : NMState :=
  checkForResponses (fun _ => true) nmAfterFirstSend 5

/-- State after the delivery worker processes the second queued message for
the same (7, 3) key: the stored status regresses from RESPONDED to SENT. -/
def nmAfterSecondSend : NMState :=
  notificationStep dbTwoContacts (fun _ => true) (fun _ => true) nmAfterResponse

/-- Fall detector with a three-second threshold and no active events. -/
def fdTh3 : FallDetectorState := ⟨fun _ => none, [], 3⟩

/-- Four ticks of the fallen person at seconds 0, 1, 2 and 3: the elapsed
time reaches the three-second threshold on the last tick. -/
def ticksTh3 : List (List DetectedPerson × Nat) :=
  [([fallenP], 0), ([fallenP], 1), ([fallenP], 2), ([fallenP], 3)]

/-- User store holding one user (id 5) with a single phone-only emergency
contact and no family doctor. -/
def dbOneContact : Int → User := fun i =>
  if i = 5 then ⟨5, "Carol", [⟨"c1", "111", "", "", ""⟩], noDoctor⟩
  else missingUser

/-- A detection whose box is the standing test box. -/
def standingBox : Rect := ⟨0, 0, 10, 10⟩

/-- Tracker trace in which the single track of tick one is dropped on tick
two (empty detection set). -/
def droppedTrace : List (List DetectedPerson) :=
  [[⟨-1, standingBox⟩], []]

/-- Invariant of a PersonTracker state: the tracked ids are pairwise distinct
and all lie below the id counter. -/
def TrackerInv (s : TrackerState) : Prop :=
  ((s.trackedPersons.map (fun p => p.id)).Pairwise (· ≠ ·)) ∧
  ∀ p ∈ s.trackedPersons, p.id < s.nextId

/-- Claim C10: when the user-store lookup returns the sentinel record with id
-1, notifyFallEvent returns without pushing any message onto the queue and
without creating or modifying any active-notification entry — the dispatcher
state is unchanged. -/
theorem c10_missing_user_is_noop (db : Int → User) (s : NMState)
    (fallEvent : FallEvent) (userId : Int) (now : Nat)
    (h : (db userId).id = -1) :
    notifyFallEvent db s fallEvent userId now = s := by
  unfold notifyFallEvent
  simp [h]

/-- Witness for C10: notifying user 0 against the empty store leaves the
initial dispatcher state untouched. -/
theorem c10_missing_user_is_noop_witness :
    ((fun _ : Int => missingUser) 0).id = -1 ∧
    notifyFallEvent (fun _ : Int => missingUser) initialNM fe3 0 0 = initialNM :=
  ⟨by decide, c10_missing_user_is_noop (fun _ => missingUser) initialNM fe3 0 0 (by decide)⟩

/-- Claim C6: getFrame on a disconnected session first attempts connect() and
returns the empty frame when the connect fails; on a read failure while
connected it marks the session disconnected, sleeps the fixed one-second
back-off, attempts exactly one reconnect, and returns the empty frame for
the tick whether or not that reconnect succeeded (the final connected flag
equals the reconnect outcome). -/
theorem c6_getFrame_reconnect_policy (s : CameraState)
    (openOk1 openOk2 : Bool) (readResult : Option Frame) :
    (s.connected = false → openOk1 = false →
      Camera.getFrame s openOk1 readResult openOk2 =
        (none, ⟨false, false⟩, [CamEvent.openAttempt])) ∧
    (s.connected = true →
      Camera.getFrame s openOk1 none openOk2 =
        (none, ⟨openOk2, openOk2⟩,
          [CamEvent.sleepSeconds 1, CamEvent.openAttempt])) := by
  obtain ⟨c, cap⟩ := s
  constructor
  · intro hc ho
    subst hc; subst ho
    simp [Camera.getFrame, Camera.connect]
  · intro hc
    subst hc
    cases openOk2 <;>
      simp [Camera.getFrame, Camera.connect, Camera.disconnect]

/-- Witness for C6: a connected camera whose read fails returns the empty
frame after one sleep and one reconnect attempt, for both reconnect
outcomes, and a disconnected camera whose connect fails returns the empty
frame after the single connect attempt. -/
theorem c6_getFrame_reconnect_policy_witness :
    Camera.getFrame ⟨false, false⟩ false none true =
      (none, ⟨false, false⟩, [CamEvent.openAttempt]) ∧
    Camera.getFrame ⟨true, true⟩ true none false =
      (none, ⟨false, false⟩, [CamEvent.sleepSeconds 1, CamEvent.openAttempt]) ∧
    Camera.getFrame ⟨true, true⟩ true none true =
      (none, ⟨true, true⟩, [CamEvent.sleepSeconds 1, CamEvent.openAttempt]) :=
  ⟨(c6_getFrame_reconnect_policy ⟨false, false⟩ false true none).1 rfl rfl,
   (c6_getFrame_reconnect_policy ⟨true, true⟩ true false none).2 rfl,
   (c6_getFrame_reconnect_policy ⟨true, true⟩ true true none).2 rfl⟩

/-- Counterexample to C9 as stated: for the degenerate box (0,0,0,0) the code
divides zero by zero (NaN in the C++ double, 0 in the rational model), so
IoU(A,A) is not 1.0 for every box A. -/
theorem c9_counterexample :
    calculateIoU (Rect.mk 0 0 0 0) (Rect.mk 0 0 0 0) ≠ 1 := by
  norm_num [calculateIoU]

/-- Claim C9 (amended): calculateIoU is symmetric for all boxes, and for
boxes with positive width and height IoU(A,A) = 1.0 and disjoint boxes have
IoU 0. -/
theorem c9_iou_properties (A B : Rect) :
    calculateIoU A B = calculateIoU B A ∧
    (0 < A.width → 0 < A.height → calculateIoU A A = 1) ∧
    (0 < A.width → 0 < A.height → 0 < B.width → 0 < B.height →
      Rect.disjoint A B → calculateIoU A B = 0) := by
  refine ⟨?_, ?_, ?_⟩
  · simp only [calculateIoU]
    rw [max_comm A.x B.x, max_comm A.y B.y,
      min_comm (A.x + A.width) (B.x + B.width),
      min_comm (A.y + A.height) (B.y + B.height)]
    split_ifs with h
    · rfl
    · ring_nf
  · intro hw hh
    unfold calculateIoU
    have hx : ¬(min (A.x + A.width) (A.x + A.width) < max A.x A.x ∨
        min (A.y + A.height) (A.y + A.height) < max A.y A.y) := by
      simp only [min_self, max_self, not_or, not_lt]
      omega
    rw [if_neg hx]
    simp only [min_self, max_self]
    have harea : ((A.width * A.height : Int) : ℚ) ≠ 0 := by
      have : (0 : Int) < A.width * A.height := mul_pos hw hh
      exact_mod_cast this.ne.symm
    have hsub : (A.x + A.width - A.x) * (A.y + A.height - A.y) =
        A.width * A.height := by ring
    rw [hsub]
    field_simp
  · intro hwa hha hwb hhb hdisj
    unfold calculateIoU
    set x1 := max A.x B.x with hx1
    set y1 := max A.y B.y with hy1
    set x2 := min (A.x + A.width) (B.x + B.width) with hx2
    set y2 := min (A.y + A.height) (B.y + B.height) with hy2
    by_cases hguard : x2 < x1 ∨ y2 < y1
    · rw [if_pos hguard]
    · rw [if_neg hguard]
      push_neg at hguard
      obtain ⟨hxle, hyle⟩ := hguard
      have hdeg : x2 ≤ x1 ∨ y2 ≤ y1 := by
        by_contra hcon
        push_neg at hcon
        obtain ⟨hxlt, hylt⟩ := hcon
        have hxq : (x1 : ℚ) < (x2 : ℚ) := by exact_mod_cast hxlt
        have hyq : (y1 : ℚ) < (y2 : ℚ) := by exact_mod_cast hylt
        have hpx : (x1 : ℚ) < ((x1 : ℚ) + x2) / 2 ∧ ((x1 : ℚ) + x2) / 2 < x2 :=
          ⟨by linarith, by linarith⟩
        have hpy : (y1 : ℚ) < ((y1 : ℚ) + y2) / 2 ∧ ((y1 : ℚ) + y2) / 2 < y2 :=
          ⟨by linarith, by linarith⟩
        apply hdisj (((x1 : ℚ) + x2) / 2) (((y1 : ℚ) + y2) / 2)
        have hax : (A.x : ℚ) ≤ (x1 : ℚ) := by
          exact_mod_cast le_max_left A.x B.x
        have hbx : (B.x : ℚ) ≤ (x1 : ℚ) := by
          exact_mod_cast le_max_right A.x B.x
        have hay : (A.y : ℚ) ≤ (y1 : ℚ) := by
          exact_mod_cast le_max_left A.y B.y
        have hby : (B.y : ℚ) ≤ (y1 : ℚ) := by
          exact_mod_cast le_max_right A.y B.y
        have haxw : (x2 : ℚ) ≤ ((A.x + A.width : Int) : ℚ) := by
          exact_mod_cast min_le_left (A.x + A.width) (B.x + B.width)
        have hbxw : (x2 : ℚ) ≤ ((B.x + B.width : Int) : ℚ) := by
          exact_mod_cast min_le_right (A.x + A.width) (B.x + B.width)
        have hayh : (y2 : ℚ) ≤ ((A.y + A.height : Int) : ℚ) := by
          exact_mod_cast min_le_left (A.y + A.height) (B.y + B.height)
        have hbyh : (y2 : ℚ) ≤ ((B.y + B.height : Int) : ℚ) := by
          exact_mod_cast min_le_right (A.y + A.height) (B.y + B.height)
        exact ⟨⟨lt_of_le_of_lt hax hpx.1, lt_of_lt_of_le hpx.2 haxw,
                lt_of_le_of_lt hay hpy.1, lt_of_lt_of_le hpy.2 hayh⟩,
               ⟨lt_of_le_of_lt hbx hpx.1, lt_of_lt_of_le hpx.2 hbxw,
                lt_of_le_of_lt hby hpy.1, lt_of_lt_of_le hpy.2 hbyh⟩⟩
      have hzero : ((x2 - x1) * (y2 - y1) : Int) = 0 := by
        rcases hdeg with h | h
        · have hx : x2 = x1 := le_antisymm h hxle
          rw [hx]; ring
        · have hy : y2 = y1 := le_antisymm h hyle
          rw [hy]; ring
      simp only [hzero]
      push_cast
      rw [zero_div]

/-- A person's loop iteration in analyze leaves every other key of the event
map unchanged. -/
theorem processPerson_other_key (frame : Frame) (now : Nat)
    (s : FallDetectorState) (p : DetectedPerson) (k : Int) (hk : k ≠ p.id) :
    (processPerson frame now s p).fallEvents k = s.fallEvents k := by
  unfold processPerson
  cases hg : isPersonOnGround p
  · simp only [hg, Bool.false_eq_true, if_false]
    split <;> simp [hk]
  · simp only [hg, if_true]
    cases hcur : s.fallEvents p.id
    · simp only [hcur]
      simp [hk]
    · simp only [hcur]
      split <;> simp [hk]

/-- A person's loop iteration rewrites the person's own key of the event map
according to keyAfterProcess. -/
theorem processPerson_own_key (frame : Frame) (now : Nat)
    (s : FallDetectorState) (p : DetectedPerson) :
    (processPerson frame now s p).fallEvents p.id =
      keyAfterProcess s.fallDurationThreshold frame now (s.fallEvents p.id) p := by
  unfold processPerson keyAfterProcess
  cases hg : isPersonOnGround p
  · simp only [hg, Bool.false_eq_true, if_false]
    split
    · rename_i hsome
      simp only [Option.isSome_iff_exists] at hsome
      obtain ⟨ev, hev⟩ := hsome
      simp [hev]
    · rename_i hnone
      rw [Option.not_isSome_iff_eq_none] at hnone
      simp [hnone]
  · simp only [hg, if_true]
    cases hcur : s.fallEvents p.id
    · simp only [hcur]
      simp
    · simp only [hcur]
      split <;> simp

/-- A person's loop iteration appends the person's id to the alert list
exactly under alertCond, and touches no other id. -/
theorem processPerson_alerts (frame : Frame) (now : Nat)
    (s : FallDetectorState) (p : DetectedPerson) (x : Int) :
    (x ∈ (processPerson frame now s p).newAlerts ↔
      x ∈ s.newAlerts ∨
        (x = p.id ∧ alertCond s.fallDurationThreshold now (s.fallEvents p.id) p)) := by
  unfold processPerson alertCond
  cases hg : isPersonOnGround p
  · simp only [hg, Bool.false_eq_true, if_false]
    split <;> simp [hg]
  · simp only [hg, if_true]
    cases hcur : s.fallEvents p.id
    · simp only [hcur]
      simp
    · rename_i ev
      simp only [hcur]
      split
      · rename_i hcond
        simp only [List.mem_append, List.mem_singleton, true_and,
          Option.some.injEq]
        constructor
        · rintro (hx | hx)
          · exact Or.inl hx
          · exact Or.inr ⟨hx, ev, rfl, hcond.1, hcond.2⟩
        · rintro (hx | ⟨hx, -⟩)
          · exact Or.inl hx
          · exact Or.inr hx
      · rename_i hcond
        simp only [true_and, Option.some.injEq]
        constructor
        · intro hx
          exact Or.inl hx
        · rintro (hx | ⟨hx, ev2, hev2, hdur, hal⟩)
          · exact hx
          · subst hev2
            exact absurd ⟨hdur, hal⟩ hcond

/-- A person's loop iteration preserves the configured threshold. -/
theorem processPerson_threshold (frame : Frame) (now : Nat)
    (s : FallDetectorState) (p : DetectedPerson) :
    (processPerson frame now s p).fallDurationThreshold =
      s.fallDurationThreshold := by
  unfold processPerson
  cases hg : isPersonOnGround p
  · simp only [hg, Bool.false_eq_true, if_false]
    split <;> simp
  · simp only [hg, if_true]
    cases hcur : s.fallEvents p.id
    · simp only [hcur]
    · simp only [hcur]
      split <;> simp

/-- The per-person loop preserves the configured threshold. -/
theorem foldl_threshold (frame : Frame) (now : Nat)
    (persons : List DetectedPerson) :
    ∀ acc : FallDetectorState,
    (persons.foldl (processPerson frame now) acc).fallDurationThreshold =
      acc.fallDurationThreshold := by
  induction persons with
  | nil => intro acc; rfl
  | cons q rest ih =>
    intro acc
    rw [List.foldl_cons, ih, processPerson_threshold]

/-- A loop over persons none of whom carries the given id leaves that id's
event entry and its alert membership unchanged. -/
theorem foldl_no_occurrence (frame : Frame) (now : Nat) (id : Int)
    (persons : List DetectedPerson) :
    ∀ acc : FallDetectorState, (∀ q ∈ persons, q.id ≠ id) →
    (persons.foldl (processPerson frame now) acc).fallEvents id =
      acc.fallEvents id ∧
    (id ∈ (persons.foldl (processPerson frame now) acc).newAlerts ↔
      id ∈ acc.newAlerts) := by
  induction persons with
  | nil => intro acc _; exact ⟨rfl, Iff.rfl⟩
  | cons q rest ih =>
    intro acc h
    have hq : q.id ≠ id := h q (List.mem_cons_self q rest)
    have hrest : ∀ r ∈ rest, r.id ≠ id := fun r hr => h r (List.mem_cons_of_mem q hr)
    rw [List.foldl_cons]
    obtain ⟨ihk, iha⟩ := ih (processPerson frame now acc q) hrest
    refine ⟨?_, ?_⟩
    · rw [ihk, processPerson_other_key]
      exact fun he => hq he.symm
    · rw [iha, processPerson_alerts]
      constructor
      · rintro (hx | ⟨hx, -⟩)
        · exact hx
        · exact absurd hx.symm hq
      · exact Or.inl

/-- A loop over persons containing exactly one occurrence of the given id
rewrites that id's event entry through keyAfterProcess and adds the id to
the alert list exactly under alertCond. -/
theorem foldl_single_occurrence (frame : Frame) (now : Nat) (id : Int)
    (p : DetectedPerson) (persons : List DetectedPerson) :
    ∀ acc : FallDetectorState,
    persons.filter (fun q => decide (q.id = id)) = [p] →
    (persons.foldl (processPerson frame now) acc).fallEvents id =
      keyAfterProcess acc.fallDurationThreshold frame now (acc.fallEvents id) p ∧
    (id ∈ (persons.foldl (processPerson frame now) acc).newAlerts ↔
      id ∈ acc.newAlerts ∨
        alertCond acc.fallDurationThreshold now (acc.fallEvents id) p) := by
  induction persons with
  | nil => intro acc h; simp at h
  | cons q rest ih =>
    intro acc hf
    rw [List.filter_cons] at hf
    by_cases hq : q.id = id
    · have hf2 : q = p ∧ rest.filter (fun r => decide (r.id = id)) = [] := by
        constructor
        · have : q :: rest.filter (fun r => decide (r.id = id)) = [p] := by
            simpa [hq] using hf
          exact (List.cons.injEq _ _ _ _ ▸ this).1
        · have : q :: rest.filter (fun r => decide (r.id = id)) = [p] := by
            simpa [hq] using hf
          exact (List.cons.injEq _ _ _ _ ▸ this).2
      obtain ⟨rfl, hrest0⟩ := hf2
      have hrest : ∀ r ∈ rest, r.id ≠ id := by
        intro r hr
        have := List.filter_eq_nil_iff.mp hrest0 r hr
        simpa using this
      rw [List.foldl_cons]
      obtain ⟨fk, fa⟩ := foldl_no_occurrence frame now id rest
        (processPerson frame now acc q) hrest
      refine ⟨?_, ?_⟩
      · rw [fk]
        have := processPerson_own_key frame now acc q
        rw [hq] at this
        exact this
      · rw [fa, processPerson_alerts]
        rw [hq]
        constructor
        · rintro (hx | ⟨-, hc⟩)
          · exact Or.inl hx
          · exact Or.inr hc
        · rintro (hx | hc)
          · exact Or.inl hx
          · exact Or.inr ⟨rfl, hc⟩
    · replace hf : rest.filter (fun r => decide (r.id = id)) = [p] := by
        simpa [hq] using hf
      rw [List.foldl_cons]
      obtain ⟨ihk, iha⟩ := ih (processPerson frame now acc q) hf
      have hother : (processPerson frame now acc q).fallEvents id =
          acc.fallEvents id :=
        processPerson_other_key frame now acc q id (fun he => hq he.symm)
      have hth := processPerson_threshold frame now acc q
      refine ⟨?_, ?_⟩
      · rw [ihk, hother, hth]
      · rw [iha, hother, hth, processPerson_alerts]
        constructor
        · rintro ((hx | ⟨hx, -⟩) | hc)
          · exact Or.inl hx
          · exact absurd hx.symm hq
          · exact Or.inr hc
        · rintro (hx | hc)
          · exact Or.inl (Or.inl hx)
          · exact Or.inr hc

/-- Every id in a loop's alert output that was not already pending came from
an on-ground person of this tick carrying that id. -/
theorem foldl_alert_origin (frame : Frame) (now : Nat) (x : Int)
    (persons : List DetectedPerson) :
    ∀ acc : FallDetectorState,
    x ∈ (persons.foldl (processPerson frame now) acc).newAlerts →
    x ∈ acc.newAlerts ∨ ∃ p ∈ persons, p.id = x ∧ isPersonOnGround p = true := by
  induction persons with
  | nil => intro acc h; exact Or.inl h
  | cons q rest ih =>
    intro acc h
    rw [List.foldl_cons] at h
    rcases ih (processPerson frame now acc q) h with hx | ⟨p, hp, hpx, hpg⟩
    · rw [processPerson_alerts] at hx
      rcases hx with hx | ⟨hx, hc, -⟩
      · exact Or.inl hx
      · exact Or.inr ⟨q, List.mem_cons_self q rest, hx.symm, hc⟩
    · exact Or.inr ⟨p, List.mem_cons_of_mem q hp, hpx, hpg⟩

/-- Analyze preserves the configured threshold. -/
theorem analyze_threshold (s : FallDetectorState) (persons : List DetectedPerson)
    (frame : Frame) (now : Nat) :
    (analyze s persons frame now).fallDurationThreshold =
      s.fallDurationThreshold := by
  unfold analyze
  exact foldl_threshold frame now persons _

/-- A tick whose detections carry exactly one occurrence of the given id
rewrites that id's event entry through keyAfterProcess. -/
theorem analyze_key_single (s : FallDetectorState) (persons : List DetectedPerson)
    (frame : Frame) (now : Nat) (id : Int) (p : DetectedPerson)
    (hf : persons.filter (fun q => decide (q.id = id)) = [p]) :
    (analyze s persons frame now).fallEvents id =
      keyAfterProcess s.fallDurationThreshold frame now (s.fallEvents id) p := by
  have hpf : p ∈ persons.filter (fun q => decide (q.id = id)) := by
    rw [hf]; exact List.mem_singleton_self p
  have hp : p ∈ persons := (List.mem_filter.mp hpf).1
  have hpid : p.id = id := of_decide_eq_true (List.mem_filter.mp hpf).2
  have hmem : id ∈ persons.map (fun q => q.id) := by
    rw [← hpid]; exact List.mem_map_of_mem _ hp
  simp only [analyze]
  rw [if_pos (List.elem_eq_true_of_mem hmem)]
  exact (foldl_single_occurrence frame now id p persons _ hf).1

/-- A tick whose detections carry exactly one occurrence of the given id
contains that id among its new alerts exactly under alertCond. -/
theorem analyze_alerts_single (s : FallDetectorState)
    (persons : List DetectedPerson) (frame : Frame) (now : Nat) (id : Int)
    (p : DetectedPerson)
    (hf : persons.filter (fun q => decide (q.id = id)) = [p]) :
    (id ∈ (analyze s persons frame now).newAlerts ↔
      alertCond s.fallDurationThreshold now (s.fallEvents id) p) := by
  unfold analyze
  have := (foldl_single_occurrence frame now id p persons
    { s with newAlerts := [] } hf).2
  simpa using this

/-- A tick whose detections do not carry the given id removes that id's
event entry. -/
theorem analyze_key_absent (s : FallDetectorState) (persons : List DetectedPerson)
    (frame : Frame) (now : Nat) (id : Int) (h : ∀ q ∈ persons, q.id ≠ id) :
    (analyze s persons frame now).fallEvents id = none := by
  have hmem : id ∉ persons.map (fun q => q.id) := by
    intro hc
    obtain ⟨q, hq, hqid⟩ := List.mem_map.mp hc
    exact h q hq hqid
  simp only [analyze]
  rw [if_neg]
  intro hc
  exact hmem (List.mem_of_elem_eq_true hc)

/-- Every id a tick newly alerts belongs to an on-ground person of that
tick's detection set. -/
theorem analyze_alert_origin (s : FallDetectorState)
    (persons : List DetectedPerson) (frame : Frame) (now : Nat) (x : Int)
    (h : x ∈ (analyze s persons frame now).newAlerts) :
    ∃ p ∈ persons, p.id = x ∧ isPersonOnGround p = true := by
  unfold analyze at h
  rcases foldl_alert_origin frame now x persons { s with newAlerts := [] } h with
    hx | hout
  · simp at hx
  · exact hout

/-- Counterexample to C4 as stated: after the tick that alerts person 1, a
first getNewAlerts call returns [1] and a second call before the next
analyze returns [1] again, not the empty list — the C++ body is a plain
`return m_newAlerts;` and clears nothing. -/
theorem c4_counterexample :
    (getNewAlerts fdTwoTicks).1 = [1] ∧
    (getNewAlerts ((getNewAlerts fdTwoTicks).2)).1 ≠ [] := by
  constructor <;>
    norm_num [getNewAlerts, fdTwoTicks, fdEmpty, fallenP, frame0, analyze,
      processPerson, isPersonOnGround, snapOf]

/-- Claim C4 (amended): getNewAlerts returns the current tick's
newly-crossed-threshold set but does not clear it — a repeated call returns
the same list; the set is reset at the start of the next analyze call (its
result does not depend on the pending alert list), and every id it holds
crossed the threshold on that tick (it belongs to an on-ground detection of
the tick). -/
theorem c4_getNewAlerts_drain (s : FallDetectorState) (l : List Int)
    (persons : List DetectedPerson) (frame : Frame) (now : Nat) (x : Int) :
    getNewAlerts ((getNewAlerts s).2) = getNewAlerts s ∧
    analyze { s with newAlerts := l } persons frame now =
      analyze s persons frame now ∧
    (x ∈ (analyze s persons frame now).newAlerts →
      ∃ p ∈ persons, p.id = x ∧ isPersonOnGround p = true) :=
  ⟨rfl, rfl, fun h => analyze_alert_origin s persons frame now x h⟩

/-- Witness for C4 (amended): on the alerting tick of the concrete two-tick
fall, the id 1 is in the alert set and the theorem traces it back to the
on-ground detection. -/
theorem c4_getNewAlerts_drain_witness :
    (1 : Int) ∈ (analyze (analyze fdEmpty [fallenP] frame0 0) [fallenP]
      frame0 1).newAlerts ∧
    ∃ p ∈ [fallenP], p.id = (1 : Int) ∧ isPersonOnGround p = true :=
  ⟨by norm_num [fdEmpty, fallenP, frame0, analyze, processPerson,
      isPersonOnGround, snapOf],
   (c4_getNewAlerts_drain (analyze fdEmpty [fallenP] frame0 0) [] [fallenP]
      frame0 1 1).2.2
    (by norm_num [fdEmpty, fallenP, frame0, analyze, processPerson,
      isPersonOnGround, snapOf])⟩

/-- Claim C7: an active fall event is removed on the same tick when its
identity fails the on-ground predicate or is absent from the detection set,
and a later tick on which the identity again satisfies the predicate creates
a brand-new event whose startTime is that later tick's time (alerted reset
to false). -/
theorem c7_event_removal_and_restart (s : FallDetectorState)
    (persons : List DetectedPerson) (frame : Frame) (now : Nat) (id : Int)
    (p : DetectedPerson) :
    (persons.filter (fun q => decide (q.id = id)) = [p] →
      isPersonOnGround p = false →
      (analyze s persons frame now).fallEvents id = none) ∧
    ((∀ q ∈ persons, q.id ≠ id) →
      (analyze s persons frame now).fallEvents id = none) ∧
    (s.fallEvents id = none →
      persons.filter (fun q => decide (q.id = id)) = [p] →
      isPersonOnGround p = true →
      (analyze s persons frame now).fallEvents id =
        some ⟨id, now, false, snapOf frame p, p.boundingBox⟩) := by
  refine ⟨?_, fun h => analyze_key_absent s persons frame now id h, ?_⟩
  · intro hf hg
    rw [analyze_key_single s persons frame now id p hf]
    unfold keyAfterProcess
    simp [hg]
  · intro hnone hf hg
    have hpf : p ∈ persons.filter (fun q => decide (q.id = id)) := by
      rw [hf]; exact List.mem_singleton_self p
    have hpid : p.id = id := of_decide_eq_true (List.mem_filter.mp hpf).2
    rw [analyze_key_single s persons frame now id p hf, hnone]
    unfold keyAfterProcess
    simp [hg, hpid]

/-- Witness for C7: concretely, the event of person 1 disappears when the
person stands up (10 by 10 box) and when the person vanishes, and a fresh
tick at second 5 creates an event whose startTime is 5 with alerted false. -/
theorem c7_event_removal_and_restart_witness :
    (analyze (analyze fdEmpty [fallenP] frame0 0) [⟨1, standingBox⟩] frame0
      1).fallEvents 1 = none ∧
    (analyze (analyze fdEmpty [fallenP] frame0 0) [] frame0 1).fallEvents 1 =
      none ∧
    (analyze fdEmpty [fallenP] frame0 5).fallEvents 1 =
      some ⟨1, 5, false, snapOf frame0 fallenP, fallenP.boundingBox⟩ :=
  ⟨(c7_event_removal_and_restart (analyze fdEmpty [fallenP] frame0 0)
      [⟨1, standingBox⟩] frame0 1 1 ⟨1, standingBox⟩).1
    (by rfl)
    (by norm_num [isPersonOnGround, standingBox]),
   (c7_event_removal_and_restart (analyze fdEmpty [fallenP] frame0 0) []
      frame0 1 1 fallenP).2.1
    (by intro q hq; simp at hq),
   (c7_event_removal_and_restart fdEmpty [fallenP] frame0 5 1 fallenP).2.2
    (by rfl)
    (by rfl)
    (by norm_num [isPersonOnGround, fallenP])⟩

/-- Unfolding of the uniqueFallen check: it certifies a single on-ground
occurrence of the id. -/
theorem uniqueFallen_spec (id : Int) (persons : List DetectedPerson)
    (h : uniqueFallen id persons = true) :
    ∃ p, persons.filter (fun q => decide (q.id = id)) = [p] ∧
      isPersonOnGround p = true := by
  unfold uniqueFallen at h
  split at h
  · rename_i p heq
    exact ⟨p, heq, h⟩
  · exact Bool.noConfusion h

/-- Progress of an existing fall event along a run of ticks on each of which
the id has a unique on-ground occurrence: the event survives with its
original startTime, its alerted flag latches as soon as some tick's elapsed
time reaches the threshold, and the id is newly alerted exactly on the first
tick whose elapsed time reaches the threshold while the flag was still
clear. -/
theorem run_fallen_progress (frame : Frame) (id : Int)
    (ticks : List (List DetectedPerson × Nat)) :
    ∀ (s : FallDetectorState) (ev : FallEvent),
    s.fallEvents id = some ev →
    (∀ t ∈ ticks, uniqueFallen id t.1 = true) →
    ∀ j, j < ticks.length →
    ∃ ev2 t, ticks.get? j = some t ∧
      (runAnalyze frame s (ticks.take (j + 1))).fallEvents id = some ev2 ∧
      ev2.startTime = ev.startTime ∧
      ((ev2.alerted = true) ↔ (ev.alerted = true ∨ ∃ i t2, i ≤ j ∧
        ticks.get? i = some t2 ∧
        ((t2.2 - ev.startTime : Nat) : Int) ≥ s.fallDurationThreshold)) ∧
      ((id ∈ (runAnalyze frame s (ticks.take (j + 1))).newAlerts) ↔
        (ev.alerted = false ∧
          ((t.2 - ev.startTime : Nat) : Int) ≥ s.fallDurationThreshold ∧
          ∀ i t2, i < j → ticks.get? i = some t2 →
            ¬ ((t2.2 - ev.startTime : Nat) : Int) ≥ s.fallDurationThreshold)) := by
  induction ticks with
  | nil =>
    intro s ev _ _ j hj
    exact absurd hj (by simp)
  | cons t rest ih =>
    intro s ev hev hgood j hj
    obtain ⟨p, hfp, hgp⟩ := uniqueFallen_spec id t.1
      (hgood t (List.mem_cons_self t rest))
    have hkey := analyze_key_single s t.1 frame t.2 id p hfp
    have halerts := analyze_alerts_single s t.1 frame t.2 id p hfp
    have hth := analyze_threshold s t.1 frame t.2
    rw [hev] at hkey
    rw [keyAfterProcess] at hkey
    rw [if_pos hgp] at hkey
    replace hkey : (analyze s t.1 frame t.2).fallEvents id =
        (if ((t.2 - ev.startTime : Nat) : Int) ≥ s.fallDurationThreshold ∧
            ev.alerted = false then
          some { ev with position := p.boundingBox, alerted := true }
        else some { ev with position := p.boundingBox }) := hkey
    have hcases : (runAnalyze frame s [t]).fallEvents id =
        some { ev with position := p.boundingBox, alerted := ev.alerted || decide (((t.2 - ev.startTime : Nat) : Int) ≥ s.fallDurationThreshold) } := by
      show (analyze s t.1 frame t.2).fallEvents id = _
      rw [hkey]
      by_cases hc : ((t.2 - ev.startTime : Nat) : Int) ≥ s.fallDurationThreshold ∧
          ev.alerted = false
      · rw [if_pos hc]
        have hb : (ev.alerted || decide (((t.2 - ev.startTime : Nat) : Int) ≥
            s.fallDurationThreshold)) = true := by
          rw [hc.2]
          simp [hc.1]
        rw [hb]
      · rw [if_neg hc]
        have hb : (ev.alerted || decide (((t.2 - ev.startTime : Nat) : Int) ≥
            s.fallDurationThreshold)) = ev.alerted := by
          by_cases ha : ev.alerted = true
          · simp [ha]
          · have ha2 : ev.alerted = false := by
              cases hb2 : ev.alerted
              · rfl
              · exact absurd hb2 ha
            have hnd : ¬ ((t.2 - ev.startTime : Nat) : Int) ≥
                s.fallDurationThreshold := fun hd => hc ⟨hd, ha2⟩
            simp [ha2, hnd]
        rw [hb]
    have hmem1 : (id ∈ (runAnalyze frame s [t]).newAlerts) ↔
        (ev.alerted = false ∧
          ((t.2 - ev.startTime : Nat) : Int) ≥ s.fallDurationThreshold) := by
      show (id ∈ (analyze s t.1 frame t.2).newAlerts) ↔ _
      rw [halerts]
      unfold alertCond
      rw [hev]
      constructor
      · rintro ⟨-, ev2, hev2, hd, hal⟩
        injection hev2 with hev2
        subst hev2
        exact ⟨hal, hd⟩
      · rintro ⟨hal, hd⟩
        exact ⟨hgp, ev, rfl, hd, hal⟩
    cases j with
    | zero =>
      refine ⟨{ ev with position := p.boundingBox, alerted := ev.alerted || decide (((t.2 - ev.startTime : Nat) : Int) ≥ s.fallDurationThreshold) }, t, rfl, ?_, rfl, ?_, ?_⟩
      · simpa using hcases
      · simp only [Bool.or_eq_true, decide_eq_true_eq]
        constructor
        · rintro (ha | hd)
          · exact Or.inl ha
          · exact Or.inr ⟨0, t, le_refl 0, rfl, hd⟩
        · rintro (ha | ⟨i, t2, hi, hget, hd⟩)
          · exact Or.inl ha
          · interval_cases i
            injection hget with hget
            subst hget
            exact Or.inr hd
      · have : ((t :: rest).take 1) = [t] := rfl
        rw [this]
        rw [hmem1]
        constructor
        · rintro ⟨hal, hd⟩
          exact ⟨hal, hd, fun i t2 hi _ => absurd hi (Nat.not_lt_zero i)⟩
        · rintro ⟨hal, hd, -⟩
          exact ⟨hal, hd⟩
    | succ jj =>
      have hjj : jj < rest.length := by
        simpa using hj
      have hrun : runAnalyze frame s ((t :: rest).take (jj + 1 + 1)) =
          runAnalyze frame (analyze s t.1 frame t.2) (rest.take (jj + 1)) := by
        rfl
      obtain ⟨ev2, t2, hget2, hkey2, hst2, hal2, hmem2⟩ :=
        ih (analyze s t.1 frame t.2)
          { ev with position := p.boundingBox, alerted := ev.alerted || decide (((t.2 - ev.startTime : Nat) : Int) ≥ s.fallDurationThreshold) }
          hcases
          (fun tt htt => hgood tt (List.mem_cons_of_mem t htt))
          jj hjj
      rw [hth] at hal2 hmem2
      refine ⟨ev2, t2, by simpa using hget2, hkey2,
        by simpa using hst2, ?_, ?_⟩
      · rw [hal2]
        simp only [Bool.or_eq_true, decide_eq_true_eq]
        constructor
        · rintro ((ha | hd) | ⟨i, t3, hi, hget3, hd3⟩)
          · exact Or.inl ha
          · exact Or.inr ⟨0, t, Nat.zero_le _, rfl, hd⟩
          · exact Or.inr ⟨i + 1, t3, Nat.succ_le_succ hi, by simpa using hget3,
              by simpa using hd3⟩
        · rintro (ha | ⟨i, t3, hi, hget3, hd3⟩)
          · exact Or.inl (Or.inl ha)
          · cases i with
            | zero =>
              injection hget3 with hget3
              subst hget3
              exact Or.inl (Or.inr hd3)
            | succ ii =>
              exact Or.inr ⟨ii, t3, Nat.le_of_succ_le_succ hi,
                by simpa using hget3, by simpa using hd3⟩
      · constructor
        · intro hx
          obtain ⟨hal, hd, hall⟩ := hmem2.mp hx
          have hal0 : ev.alerted = false ∧
              ¬ ((t.2 - ev.startTime : Nat) : Int) ≥ s.fallDurationThreshold := by
            constructor
            · cases ha : ev.alerted
              · rfl
              · rw [ha] at hal
                simp at hal
            · intro hd1
              rw [decide_eq_true hd1] at hal
              simp at hal
          refine ⟨hal0.1, by simpa using hd, ?_⟩
          intro i t3 hi hget3
          cases i with
          | zero =>
            injection hget3 with hget3
            subst hget3
            exact hal0.2
          | succ ii =>
            have := hall ii t3 (by omega) (by simpa using hget3)
            simpa using this
        · rintro ⟨hal, hd, hall⟩
          have hnd1 : ¬ ((t.2 - ev.startTime : Nat) : Int) ≥
              s.fallDurationThreshold := hall 0 t (Nat.succ_pos jj) rfl
          refine hmem2.mpr ⟨by simp [hal, hnd1], by simpa using hd, ?_⟩
          intro i t3 hi hget3
          have := hall (i + 1) t3 (by omega) (by simpa using hget3)
          simpa using this

/-- Claim C3: along a run of consecutive analyze ticks on each of which the
person has a unique on-ground detection, starting with no active event for
the person and with a positive configured threshold, if some tick's elapsed
time since the episode start reaches the threshold then there is exactly one
tick k on which the person's id enters the new-alerts set, the event's
alerted flag is false strictly before k and true from k on, and the event
keeps the episode's original startTime throughout. -/
theorem c3_alert_exactly_once (s : FallDetectorState) (frame : Frame)
    (first : List DetectedPerson × Nat)
    (rest : List (List DetectedPerson × Nat)) (id : Int)
    (hth : 1 ≤ s.fallDurationThreshold)
    (hstart : s.fallEvents id = none)
    (hgood : ∀ t ∈ first :: rest, uniqueFallen id t.1 = true)
    (hreach : ∃ t ∈ first :: rest,
      ((t.2 - first.2 : Nat) : Int) ≥ s.fallDurationThreshold) :
    ∃ k, k < (first :: rest).length ∧
      (∀ j, j < (first :: rest).length →
        ∃ ev, (runAnalyze frame s ((first :: rest).take (j + 1))).fallEvents id =
            some ev ∧ ev.startTime = first.2 ∧ ((ev.alerted = true) ↔ k ≤ j)) ∧
      (∀ j, j < (first :: rest).length →
        ((id ∈ (runAnalyze frame s ((first :: rest).take (j + 1))).newAlerts) ↔
          j = k)) := by
  classical
  obtain ⟨p, hfp, hgp⟩ := uniqueFallen_spec id first.1
    (hgood first (List.mem_cons_self first rest))
  have hkey1 : (analyze s first.1 frame first.2).fallEvents id =
      some ⟨p.id, first.2, false, snapOf frame p, p.boundingBox⟩ := by
    rw [analyze_key_single s first.1 frame first.2 id p hfp, hstart,
      keyAfterProcess, if_pos hgp]
  have hmem1 : ¬ id ∈ (analyze s first.1 frame first.2).newAlerts := by
    rw [analyze_alerts_single s first.1 frame first.2 id p hfp]
    rintro ⟨-, ev, hev, -⟩
    rw [hstart] at hev
    exact Option.noConfusion hev
  have hth1 : (analyze s first.1 frame first.2).fallDurationThreshold =
      s.fallDurationThreshold := analyze_threshold s first.1 frame first.2
  have hPex : ∃ i, ∃ t2, rest.get? i = some t2 ∧
      ((t2.2 - first.2 : Nat) : Int) ≥ s.fallDurationThreshold := by
    obtain ⟨t, ht, hd⟩ := hreach
    rcases List.mem_cons.mp ht with rfl | htr
    · exfalso
      have h0 : ((t.2 - t.2 : Nat) : Int) = 0 := by simp
      rw [h0] at hd
      omega
    · obtain ⟨i, hi⟩ := List.get?_of_mem htr
      exact ⟨i, t, hi, hd⟩
  set fi := Nat.find hPex with hfidef
  obtain ⟨tf, htf, hdf⟩ := Nat.find_spec hPex
  have hmin : ∀ i, i < fi → ∀ t2, rest.get? i = some t2 →
      ¬ ((t2.2 - first.2 : Nat) : Int) ≥ s.fallDurationThreshold := by
    intro i hi t2 hget hd
    exact Nat.find_min hPex hi ⟨t2, hget, hd⟩
  have hfilen : fi < rest.length := List.get?_eq_some.mp htf |>.1
  refine ⟨fi + 1, by simpa using Nat.succ_lt_succ hfilen, ?_, ?_⟩
  · intro j hj
    cases j with
    | zero =>
      refine ⟨⟨p.id, first.2, false, snapOf frame p, p.boundingBox⟩, hkey1,
        rfl, ?_⟩
      simp
    | succ jj =>
      have hjj : jj < rest.length := by simpa using hj
      obtain ⟨ev2, t2, hget2, hkey2, hst2, hal2, -⟩ :=
        run_fallen_progress frame id rest (analyze s first.1 frame first.2)
          ⟨p.id, first.2, false, snapOf frame p, p.boundingBox⟩
          hkey1 (fun tt htt => hgood tt (List.mem_cons_of_mem first htt)) jj hjj
      rw [hth1] at hal2
      refine ⟨ev2, hkey2, by simpa using hst2, ?_⟩
      rw [hal2]
      simp only [Bool.false_eq_true, false_or, Nat.add_le_add_iff_right]
      constructor
      · rintro ⟨i, t3, hi, hget3, hd3⟩
        exact le_trans
          (Nat.find_min' hPex ⟨t3, by simpa using hget3, by simpa using hd3⟩) hi
      · intro hle
        exact ⟨fi, tf, hle, htf, by simpa using hdf⟩
  · intro j hj
    cases j with
    | zero =>
      constructor
      · intro hx
        exact absurd hx hmem1
      · intro h0
        exact absurd h0.symm (Nat.succ_ne_zero fi)
    | succ jj =>
      have hjj : jj < rest.length := by simpa using hj
      obtain ⟨ev2, t2, hget2, hkey2, hst2, hal2, hmem2⟩ :=
        run_fallen_progress frame id rest (analyze s first.1 frame first.2)
          ⟨p.id, first.2, false, snapOf frame p, p.boundingBox⟩
          hkey1 (fun tt htt => hgood tt (List.mem_cons_of_mem first htt)) jj hjj
      rw [hth1] at hmem2
      constructor
      · intro hx
        obtain ⟨-, hd, hall⟩ := hmem2.mp hx
        have hfile : fi ≤ jj :=
          Nat.find_min' hPex ⟨t2, hget2, by simpa using hd⟩
        have : ¬ fi < jj := by
          intro hlt
          exact hall fi tf hlt htf (by simpa using hdf)
        omega
      · intro hjk
        have hjfi : jj = fi := by omega
        subst hjfi
        have ht2f : t2 = tf := by
          rw [hget2] at htf
          exact Option.some.inj htf
        subst ht2f
        exact hmem2.mpr ⟨rfl, by simpa using hdf, fun i t3 hi hget3 hd3 =>
          hmin i hi t3 hget3 (by simpa using hd3)⟩

/-- Witness for C3: with a three-second threshold and ticks at seconds 0, 1,
2 and 3 of the fallen person, there is exactly one alerting tick. -/
theorem c3_alert_exactly_once_witness :
    ∃ k, k < (([fallenP], 0) ::
        [([fallenP], 1), ([fallenP], 2), ([fallenP], 3)]).length ∧
      (∀ j, j < (([fallenP], 0) ::
          [([fallenP], 1), ([fallenP], 2), ([fallenP], 3)]).length →
        ∃ ev, (runAnalyze frame0 fdTh3 ((([fallenP], 0) ::
            [([fallenP], 1), ([fallenP], 2), ([fallenP], 3)]).take
              (j + 1))).fallEvents 1 = some ev ∧
          ev.startTime = ([fallenP], (0 : Nat)).2 ∧
          ((ev.alerted = true) ↔ k ≤ j)) ∧
      (∀ j, j < (([fallenP], 0) ::
          [([fallenP], 1), ([fallenP], 2), ([fallenP], 3)]).length →
        (((1 : Int) ∈ (runAnalyze frame0 fdTh3 ((([fallenP], 0) ::
            [([fallenP], 1), ([fallenP], 2), ([fallenP], 3)]).take
              (j + 1))).newAlerts) ↔ j = k)) :=
  c3_alert_exactly_once fdTh3 frame0 ([fallenP], 0)
    [([fallenP], 1), ([fallenP], 2), ([fallenP], 3)] 1
    (by decide)
    (by rfl)
    (by
      intro t ht
      fin_cases ht <;>
        norm_num [uniqueFallen, fallenP, isPersonOnGround])
    ⟨([fallenP], 3), by decide, by decide⟩

/-- Counterexample to C3 as stated: with a configured threshold of zero
seconds, a single-tick episode reaches the threshold (elapsed 0 ≥ 0) yet
produces no alert, because the tick that creates the event never checks the
threshold — the id appears in the new-alerts set on zero ticks, not exactly
one. -/
theorem c3_counterexample :
    fdEmpty.fallDurationThreshold = 0 ∧
    isPersonOnGround fallenP = true ∧
    ((0 : Int) ≥ fdEmpty.fallDurationThreshold) ∧
    (analyze fdEmpty [fallenP] frame0 0).newAlerts = [] ∧
    (analyze fdEmpty [fallenP] frame0 0).fallEvents 1 ≠ none := by
  refine ⟨rfl, ?_, by decide, ?_, ?_⟩ <;>
    norm_num [fdEmpty, fallenP, frame0, analyze, processPerson,
      isPersonOnGround, snapOf] <;>
    exact Option.noConfusion

/-- The enqueue loop of notifyFallEvent: it appends one copy of the message
per contact to the queue and, when there is at least one contact, rebinds
the key of the active map to the PENDING message. -/
theorem notify_foldl_spec (base : NotificationMessage) (key : Int × Int)
    (contacts : List EmergencyContact) :
    ∀ acc : NMState,
    (contacts.foldl (fun acc2 _contact =>
        { acc2 with
          notificationQueue := acc2.notificationQueue ++ [base],
          activeNotifications := fun k =>
            if k = key then some base else acc2.activeNotifications k })
      acc).notificationQueue =
      acc.notificationQueue ++ List.replicate contacts.length base ∧
    (contacts = [] →
      (contacts.foldl (fun acc2 _contact =>
          { acc2 with
            notificationQueue := acc2.notificationQueue ++ [base],
            activeNotifications := fun k =>
              if k = key then some base else acc2.activeNotifications k })
        acc).activeNotifications = acc.activeNotifications) ∧
    (contacts ≠ [] →
      (contacts.foldl (fun acc2 _contact =>
          { acc2 with
            notificationQueue := acc2.notificationQueue ++ [base],
            activeNotifications := fun k =>
              if k = key then some base else acc2.activeNotifications k })
        acc).activeNotifications = fun k =>
          if k = key then some base else acc.activeNotifications k) := by
  induction contacts with
  | nil =>
    intro acc
    exact ⟨by simp, fun _ => rfl, fun h => absurd rfl h⟩
  | cons c cs ih =>
    intro acc
    rw [List.foldl_cons]
    obtain ⟨ihq, ihe, ihne⟩ := ih
      { acc with
        notificationQueue := acc.notificationQueue ++ [base],
        activeNotifications := fun k =>
          if k = key then some base else acc.activeNotifications k }
    refine ⟨?_, fun h => absurd h (List.cons_ne_nil c cs), fun _ => ?_⟩
    · rw [ihq]
      simp [List.replicate_succ]
    · by_cases hcs : cs = []
      · subst hcs
        exact ihe rfl
      · rw [ihne hcs]
        funext k
        by_cases hk : k = key <;> simp [hk]

/-- Counterexample to C5 as stated: for a user with zero emergency contacts
and a named family doctor, notifyFallEvent queues the doctor message (N + 1
= 1) but never creates the ActiveNotification entry — the PENDING write
happens only inside the per-contact loop. -/
theorem c5_counterexample :
    (dbDoctorOnly 9).emergencyContacts.length = 0 ∧
    (dbDoctorOnly 9).familyDoctor.name ≠ "" ∧
    (notifyFallEvent dbDoctorOnly initialNM fe3 9 0).notificationQueue.length
      = 1 ∧
    (notifyFallEvent dbDoctorOnly initialNM fe3 9 0).activeNotifications
      (9, 3) = none := by
  refine ⟨rfl, by decide, rfl, rfl⟩

/-- Claim C5 (amended): for an existing recipient with N emergency contacts,
one notifyFallEvent call appends exactly N messages to the FIFO queue (N + 1
when a family doctor is named), all PENDING and all keyed by the recipient
and fallen person; and provided N ≥ 1 the ActiveNotification entry for the
(userId, personId) key holds a PENDING message when the call returns (with
N = 0 no entry is written even though a doctor message may be queued). -/
theorem c5_enqueue_counts (db : Int → User) (s : NMState)
    (fallEvent : FallEvent) (userId : Int) (now : Nat)
    (h : (db userId).id ≠ -1) :
    ∃ pushed : List NotificationMessage,
      (notifyFallEvent db s fallEvent userId now).notificationQueue =
        s.notificationQueue ++ pushed ∧
      pushed.length = (db userId).emergencyContacts.length +
        (if (db userId).familyDoctor.name ≠ "" then 1 else 0) ∧
      (∀ m ∈ pushed, m.userId = userId ∧ m.personId = fallEvent.personId ∧
        m.status = NotificationStatus.PENDING) ∧
      ((db userId).emergencyContacts ≠ [] →
        ∃ m, (notifyFallEvent db s fallEvent userId now).activeNotifications
            (userId, fallEvent.personId) = some m ∧
          m.status = NotificationStatus.PENDING ∧ m.userId = userId ∧
          m.personId = fallEvent.personId) := by
  simp only [notifyFallEvent]
  rw [if_neg h]
  generalize ("EMERGENCY ALERT: " ++ (db userId).name ++
      " has fallen and may need assistance. This alert was triggered at " ++
      toString now ++
      ". Please respond to this message to confirm you are taking action." :
      String) = msgStr
  obtain ⟨hq, he, hne⟩ := notify_foldl_spec
    ⟨userId, fallEvent.personId, msgStr, now, NotificationStatus.PENDING, "", 0⟩
    (userId, fallEvent.personId) (db userId).emergencyContacts s
  by_cases hdoc : (db userId).familyDoctor.name ≠ ""
  · rw [if_pos hdoc]
    refine ⟨List.replicate (db userId).emergencyContacts.length
        ⟨userId, fallEvent.personId, msgStr, now, NotificationStatus.PENDING, "", 0⟩
      ++ [⟨userId, fallEvent.personId,
          msgStr ++ " (Medical assistance may be required)", now,
          NotificationStatus.PENDING, "", 0⟩],
      ?_, ?_, ?_, ?_⟩
    · show ((db userId).emergencyContacts.foldl _ s).notificationQueue ++ _ = _
      rw [hq, List.append_assoc]
    · simp [hdoc]
    · intro m hm
      rcases List.mem_append.mp hm with hm | hm
      · have := List.eq_of_mem_replicate hm
        subst this
        exact ⟨rfl, rfl, rfl⟩
      · rcases List.mem_singleton.mp hm with rfl
        exact ⟨rfl, rfl, rfl⟩
    · intro hcon
      show ∃ m, ((db userId).emergencyContacts.foldl _ s).activeNotifications
        (userId, fallEvent.personId) = some m ∧ _
      rw [hne hcon]
      refine ⟨⟨userId, fallEvent.personId, msgStr, now,
        NotificationStatus.PENDING, "", 0⟩, by simp, rfl, rfl, rfl⟩
  · rw [if_neg hdoc]
    refine ⟨List.replicate (db userId).emergencyContacts.length
        ⟨userId, fallEvent.personId, msgStr, now, NotificationStatus.PENDING, "", 0⟩,
      hq, ?_, ?_, ?_⟩
    · simp [hdoc]
    · intro m hm
      have := List.eq_of_mem_replicate hm
      subst this
      exact ⟨rfl, rfl, rfl⟩
    · intro hcon
      rw [hne hcon]
      refine ⟨⟨userId, fallEvent.personId, msgStr, now,
        NotificationStatus.PENDING, "", 0⟩, by simp, rfl, rfl, rfl⟩

/-- Witness for C5 (amended): for the store holding user 5 with one contact
and no doctor, the call appends one PENDING message and writes the PENDING
entry. -/
theorem c5_enqueue_counts_witness :
    (dbOneContact 5).id ≠ -1 ∧
    ∃ pushed : List NotificationMessage,
      (notifyFallEvent dbOneContact initialNM fe3 5 0).notificationQueue =
        initialNM.notificationQueue ++ pushed ∧
      pushed.length = (dbOneContact 5).emergencyContacts.length +
        (if (dbOneContact 5).familyDoctor.name ≠ "" then 1 else 0) ∧
      (∀ m ∈ pushed, m.userId = 5 ∧ m.personId = fe3.personId ∧
        m.status = NotificationStatus.PENDING) ∧
      ((dbOneContact 5).emergencyContacts ≠ [] →
        ∃ m, (notifyFallEvent dbOneContact initialNM fe3 5 0).activeNotifications
            (5, fe3.personId) = some m ∧
          m.status = NotificationStatus.PENDING ∧ m.userId = 5 ∧
          m.personId = fe3.personId) :=
  ⟨by decide, c5_enqueue_counts dbOneContact initialNM fe3 5 0 (by decide)⟩

/-- Counterexample to C2 as stated: with two messages queued for the same
(7, 3) key, the stored status reaches RESPONDED after a response-check pass
and then regresses to SENT when the delivery worker processes the second
queued message — RESPONDED is not absorbing and the status moves backward. -/
theorem c2_counterexample :
    NMStep nmAfterResponse nmAfterSecondSend ∧
    (nmAfterResponse.activeNotifications (7, 3)).map (fun m => m.status) =
      some NotificationStatus.RESPONDED ∧
    (nmAfterSecondSend.activeNotifications (7, 3)).map (fun m => m.status) =
      some NotificationStatus.SENT := by
  refine ⟨NMStep.deliver dbTwoContacts (fun _ => true) (fun _ => true)
    nmAfterResponse, ?_, ?_⟩ <;> rfl

/-- Claim C2 (amended): along every single step of the NotificationManager,
the stored message under a (userId, personId) key either is unchanged, or is
replaced by a fresh PENDING message (notifyFallEvent), or has exactly its
status overwritten to SENT or FAILED whatever it was before (the delivery
worker, which is what lets a status regress when several queued messages
share the key), or moves from SENT, DELIVERED or READ to RESPONDED (the
response-check worker, which alone never regresses a status and never
touches RESPONDED or FAILED entries). -/
theorem c2_step_status (s s2 : NMState) (h : NMStep s s2) (k : Int × Int) :
    s2.activeNotifications k = s.activeNotifications k ∨
    (∃ m2, s2.activeNotifications k = some m2 ∧
      m2.status = NotificationStatus.PENDING) ∨
    (∃ m m2, s.activeNotifications k = some m ∧
      s2.activeNotifications k = some m2 ∧
      ((m2 = { m with status := NotificationStatus.SENT } ∨
        m2 = { m with status := NotificationStatus.FAILED }) ∨
       ((m.status = NotificationStatus.SENT ∨
         m.status = NotificationStatus.DELIVERED ∨
         m.status = NotificationStatus.READ) ∧
        m2.status = NotificationStatus.RESPONDED))) := by
  cases h with
  | notify db fallEvent userId now s =>
    simp only [notifyFallEvent]
    by_cases hu : (db userId).id = -1
    · rw [if_pos hu]
      exact Or.inl rfl
    · rw [if_neg hu]
      generalize ("EMERGENCY ALERT: " ++ (db userId).name ++
          " has fallen and may need assistance. This alert was triggered at " ++
          toString now ++
          ". Please respond to this message to confirm you are taking action." :
          String) = msgStr
      obtain ⟨-, he, hne⟩ := notify_foldl_spec
        ⟨userId, fallEvent.personId, msgStr, now, NotificationStatus.PENDING, "", 0⟩
        (userId, fallEvent.personId) (db userId).emergencyContacts s
      have hact : ∀ r : NMState,
          (if (db userId).familyDoctor.name ≠ "" then
            { r with notificationQueue := r.notificationQueue ++
              [{ userId := userId, personId := fallEvent.personId,
                 message := msgStr ++ " (Medical assistance may be required)",
                 timestamp := now, status := NotificationStatus.PENDING,
                 responseMessage := "", responseTimestamp := 0 }] }
          else r).activeNotifications = r.activeNotifications := by
        intro r
        split <;> rfl
      by_cases hcon : (db userId).emergencyContacts = []
      · refine Or.inl ?_
        rw [hact, he hcon]
      · rw [hact, hne hcon]
        by_cases hk : k = (userId, fallEvent.personId)
        · refine Or.inr (Or.inl ⟨⟨userId, fallEvent.personId, msgStr, now,
            NotificationStatus.PENDING, "", 0⟩, ?_, rfl⟩)
          simp [hk]
        · refine Or.inl ?_
          simp [hk]
  | deliver db smsOk emailOk s =>
    cases hqv : s.notificationQueue with
    | nil =>
      have hs2 : notificationStep db smsOk emailOk s = s := by
        unfold notificationStep
        rw [hqv]
      rw [hs2]
      exact Or.inl rfl
    | cons notification rest =>
      by_cases hu : (db notification.userId).id = -1
      · have hs2 : (notificationStep db smsOk emailOk s).activeNotifications =
            s.activeNotifications := by
          unfold notificationStep
          rw [hqv]
          dsimp only
          rw [if_pos hu]
        rw [hs2]
        exact Or.inl rfl
      · have hs2 : (notificationStep db smsOk emailOk s).activeNotifications =
            fun k2 => if k2 = (notification.userId, notification.personId) then
              match s.activeNotifications k2 with
              | some m => some { m with status := if (List.foldl (fun acc contact => if contact.email ≠ "" ∧ emailOk contact.email = true then true else if contact.phone ≠ "" ∧ smsOk contact.phone = true then true else acc) false (db notification.userId).emergencyContacts) = true then NotificationStatus.SENT else NotificationStatus.FAILED }
              | none => none
            else s.activeNotifications k2 := by
          unfold notificationStep
          rw [hqv]
          dsimp only
          rw [if_neg hu]
        rw [hs2]
        dsimp only
        by_cases hk : k = (notification.userId, notification.personId)
        · subst hk
          rw [if_pos rfl]
          cases hcur : s.activeNotifications
              (notification.userId, notification.personId) with
          | none => exact Or.inl rfl
          | some m =>
            dsimp only
            by_cases hsent : (List.foldl (fun acc contact => if contact.email ≠ "" ∧ emailOk contact.email = true then true else if contact.phone ≠ "" ∧ smsOk contact.phone = true then true else acc) false (db notification.userId).emergencyContacts) = true
            · rw [if_pos hsent]
              exact Or.inr (Or.inr ⟨m,
                { m with status := NotificationStatus.SENT }, rfl, rfl,
                Or.inl (Or.inl rfl)⟩)
            · rw [if_neg hsent]
              exact Or.inr (Or.inr ⟨m,
                { m with status := NotificationStatus.FAILED }, rfl, rfl,
                Or.inl (Or.inr rfl)⟩)
        · rw [if_neg hk]
          exact Or.inl rfl
  | respond oracle now s =>
    have hs2 : (checkForResponses oracle s now).activeNotifications =
        fun k2 => match s.activeNotifications k2 with
          | none => none
          | some m =>
            if (m.status = NotificationStatus.SENT ∨
                m.status = NotificationStatus.DELIVERED ∨
                m.status = NotificationStatus.READ) ∧ oracle k2 = true then
              some { m with status := NotificationStatus.RESPONDED, responseMessage := "I\x27m on my way to help. ETA 10 minutes.", responseTimestamp := now }
            else some m := by
      unfold checkForResponses
      rfl
    rw [hs2]
    dsimp only
    cases hcur : s.activeNotifications k with
    | none => exact Or.inl rfl
    | some m =>
      dsimp only
      by_cases hc : (m.status = NotificationStatus.SENT ∨
          m.status = NotificationStatus.DELIVERED ∨
          m.status = NotificationStatus.READ) ∧ oracle k = true
      · rw [if_pos hc]
        exact Or.inr (Or.inr ⟨m, { m with status := NotificationStatus.RESPONDED, responseMessage := "I\x27m on my way to help. ETA 10 minutes.", responseTimestamp := now }, rfl, rfl, Or.inr ⟨hc.1, rfl⟩⟩)
      · rw [if_neg hc]
        exact Or.inl rfl

/-- Witness for C2 (amended): applying the step characterization to the
concrete response-check step of the two-contact scenario at key (7, 3). -/
theorem c2_step_status_witness :
    nmAfterResponse.activeNotifications (7, 3) =
      nmAfterFirstSend.activeNotifications (7, 3) ∨
    (∃ m2, nmAfterResponse.activeNotifications (7, 3) = some m2 ∧
      m2.status = NotificationStatus.PENDING) ∨
    (∃ m m2, nmAfterFirstSend.activeNotifications (7, 3) = some m ∧
      nmAfterResponse.activeNotifications (7, 3) = some m2 ∧
      ((m2 = { m with status := NotificationStatus.SENT } ∨
        m2 = { m with status := NotificationStatus.FAILED }) ∨
       ((m.status = NotificationStatus.SENT ∨
         m.status = NotificationStatus.DELIVERED ∨
         m.status = NotificationStatus.READ) ∧
        m2.status = NotificationStatus.RESPONDED))) :=
  c2_step_status nmAfterFirstSend nmAfterResponse
    (NMStep.respond (fun _ => true) 5 nmAfterFirstSend) (7, 3)

/-- Witness for C9 (amended): the unit box at the origin has IoU 1 with
itself, and IoU 0 with the far-away unit box it is disjoint from. -/
theorem c9_iou_properties_witness :
    calculateIoU (Rect.mk 0 0 1 1) (Rect.mk 0 0 1 1) = 1 ∧
    calculateIoU (Rect.mk 0 0 1 1) (Rect.mk 5 5 1 1) = 0 :=
  ⟨(c9_iou_properties (Rect.mk 0 0 1 1) (Rect.mk 5 5 1 1)).2.1
      (by decide) (by decide),
   (c9_iou_properties (Rect.mk 0 0 1 1) (Rect.mk 5 5 1 1)).2.2
      (by decide) (by decide) (by decide) (by decide)
      (by
        rintro px py ⟨⟨-, ha2, -, -⟩, ⟨hb1, -, -, -⟩⟩
        have h1 : px < ((0 + 1 : Int) : ℚ) := ha2
        have h2 : ((5 : Int) : ℚ) < px := hb1
        norm_num at h1 h2
        linarith)⟩

/-- The scan of matchDetection only ever returns an index of a scanned
track. -/
theorem matchDetectionAux_lt (d : Rect) (l : List DetectedPerson) :
    ∀ (i : Nat) (m : ℚ) (b : Option Nat),
    (∀ j, b = some j → j < i) →
    ∀ j, matchDetectionAux d l i m b = some j → j < i + l.length := by
  induction l with
  | nil =>
    intro i m b hb j hj
    rw [matchDetectionAux] at hj
    simpa using hb j hj
  | cons tr rest ih =>
    intro i m b hb j hj
    rw [matchDetectionAux] at hj
    split at hj
    · have := ih (i + 1) _ (some i) (fun j2 hj2 => by
        injection hj2 with hj2
        omega) j hj
      simpa [Nat.add_assoc, Nat.add_comm 1 rest.length] using this
    · have := ih (i + 1) m b (fun j2 hj2 => Nat.lt_succ_of_lt (hb j2 hj2)) j hj
      simpa [Nat.add_assoc, Nat.add_comm 1 rest.length] using this

/-- matchDetection returns a valid track index. -/
theorem matchDetection_lt (d : Rect) (tracks : List DetectedPerson) (t : Nat)
    (h : matchDetection d tracks = some t) : t < tracks.length := by
  have := matchDetectionAux_lt d tracks 0 (3 / 10) none
    (fun j hj => Option.noConfusion hj) t h
  simpa using this

/-- Rebinding one slot of the assignment keeps it aligned with the tracks:
every bound slot holds a detection already carrying its track's id. -/
theorem forall₂_aligned_set (tracks : List DetectedPerson)
    (assigned : List (Option DetectedPerson))
    (h : List.Forall₂ (fun o tr => ∀ d2, o = some d2 → d2.id = tr.id)
      assigned tracks)
    (t : Nat) (d1 : DetectedPerson)
    (hd1 : ∀ tr, tracks.get? t = some tr → d1.id = tr.id) :
    List.Forall₂ (fun o tr => ∀ d2, o = some d2 → d2.id = tr.id)
      (assigned.set t (some d1)) tracks := by
  induction h generalizing t with
  | nil => simpa using List.Forall₂.nil
  | @cons o tr os trs ha hrest ih =>
    cases t with
    | zero =>
      refine List.Forall₂.cons ?_ hrest
      intro d2 he
      injection he with he
      subst he
      exact hd1 tr rfl
    | succ n =>
      refine List.Forall₂.cons ha (ih n ?_)
      intro tr2 hg
      exact hd1 tr2 (by simpa using hg)

/-- The matching loop keeps the assignment aligned with the tracks. -/
theorem runMatching_aligned (tracks : List DetectedPerson)
    (ds : List DetectedPerson) :
    ∀ assigned,
    List.Forall₂ (fun o tr => ∀ d2, o = some d2 → d2.id = tr.id)
      assigned tracks →
    List.Forall₂ (fun o tr => ∀ d2, o = some d2 → d2.id = tr.id)
      (runMatching tracks ds assigned).2 tracks := by
  induction ds with
  | nil => intro a h; exact h
  | cons d rest ih =>
    intro a h
    rw [runMatching]
    cases hm : matchDetection d.boundingBox tracks with
    | none =>
      dsimp only
      exact ih a h
    | some t =>
      cases hg : tracks.get? t with
      | none =>
        exfalso
        have hlt := matchDetection_lt d.boundingBox tracks t hm
        rw [List.get?_eq_none] at hg
        omega
      | some tr =>
        dsimp only
        rw [hg]
        exact ih _ (forall₂_aligned_set tracks a h t { d with id := tr.id }
          (fun tr2 hg2 => by
            rw [hg] at hg2
            injection hg2 with hg2
            subst hg2
            rfl))

/-- Every detection the matching loop marks as matched carries the id of
some existing track. -/
theorem runMatching_matched_mem (tracks : List DetectedPerson)
    (ds : List DetectedPerson) :
    ∀ assigned d2, (d2, true) ∈ (runMatching tracks ds assigned).1 →
    ∃ tr ∈ tracks, d2.id = tr.id := by
  induction ds with
  | nil =>
    intro a d2 h
    rw [runMatching] at h
    simp at h
  | cons d rest ih =>
    intro a d2 h
    rw [runMatching] at h
    cases hm : matchDetection d.boundingBox tracks with
    | none =>
      rw [hm] at h
      dsimp only at h
      rcases List.mem_cons.mp h with he | hr
      · exact absurd (congrArg Prod.snd he) (by simp)
      · exact ih a d2 hr
    | some t =>
      rw [hm] at h
      dsimp only at h
      cases hg : tracks.get? t with
      | none =>
        exfalso
        have hlt := matchDetection_lt d.boundingBox tracks t hm
        rw [List.get?_eq_none] at hg
        omega
      | some tr =>
        rw [hg] at h
        dsimp only at h
        rcases List.mem_cons.mp h with he | hr
        · have hd2 : d2 = { d with id := tr.id } := congrArg Prod.fst he
          subst hd2
          exact ⟨tr, List.get?_mem hg, rfl⟩
        · exact ih _ d2 hr

/-- The bound slots of an aligned assignment, read off in track order, carry
pairwise distinct ids drawn from the tracks. -/
theorem aligned_filterMap_ids (assigned : List (Option DetectedPerson))
    (tracks : List DetectedPerson)
    (h : List.Forall₂ (fun o tr => ∀ d2, o = some d2 → d2.id = tr.id)
      assigned tracks)
    (hnd : (tracks.map (fun p => p.id)).Pairwise (· ≠ ·)) :
    ((assigned.filterMap id).map (fun p => p.id)).Pairwise (· ≠ ·) ∧
    ∀ q ∈ assigned.filterMap id, q.id ∈ tracks.map (fun p => p.id) := by
  induction h with
  | nil => exact ⟨List.Pairwise.nil, by simp⟩
  | @cons o tr os trs ha hrest ih =>
    rw [List.map_cons, List.pairwise_cons] at hnd
    obtain ⟨hd, htl⟩ := hnd
    obtain ⟨ih1, ih2⟩ := ih htl
    cases o with
    | none =>
      refine ⟨ih1, ?_⟩
      intro q hq
      exact List.mem_cons_of_mem _ (ih2 q hq)
    | some d2 =>
      have hid : d2.id = tr.id := ha d2 rfl
      constructor
      · show List.Pairwise (· ≠ ·)
          (List.map (fun p => p.id) (d2 :: List.filterMap id os))
        rw [List.map_cons, List.pairwise_cons]
        refine ⟨?_, ih1⟩
        intro x hx
        obtain ⟨q, hq, hqx⟩ := List.mem_map.mp hx
        rw [hid, ← hqx]
        exact hd q.id (ih2 q hq)
      · intro q hq
        have hq2 : q ∈ d2 :: List.filterMap id os := hq
        rcases List.mem_cons.mp hq2 with rfl | hr
        · rw [List.map_cons, hid]
          exact List.mem_cons_self _ _
        · exact List.mem_cons_of_mem _ (ih2 q hr)

/-- The id counter never decreases over the fresh-id loop. -/
theorem assignNewIds_le (ps : List (DetectedPerson × Bool)) :
    ∀ n : Int, n ≤ (assignNewIds n ps).2.2 := by
  induction ps with
  | nil => intro n; exact le_refl n
  | cons p rest ih =>
    intro n
    rw [assignNewIds]
    cases p with
    | mk d matched =>
      cases matched
      · simp only [Bool.false_eq_true, if_false, eq_self_iff_true, if_true]
        have := ih (n + 1)
        omega
      · simp only [Bool.false_eq_true, if_false, eq_self_iff_true, if_true]
        exact ih n

/-- Every track the fresh-id loop creates has an id in the counter window. -/
theorem assignNewIds_new_bounds (ps : List (DetectedPerson × Bool)) :
    ∀ (n : Int) (q : DetectedPerson), q ∈ (assignNewIds n ps).2.1 →
    n ≤ q.id ∧ q.id < (assignNewIds n ps).2.2 := by
  induction ps with
  | nil =>
    intro n q hq
    rw [assignNewIds] at hq
    simp at hq
  | cons p rest ih =>
    intro n q hq
    rw [assignNewIds] at hq
    rw [assignNewIds]
    cases p with
    | mk d matched =>
      cases matched
      · simp only [Bool.false_eq_true, if_false, eq_self_iff_true, if_true] at hq ⊢
        rcases List.mem_cons.mp hq with rfl | hr
        · have := assignNewIds_le rest (n + 1)
          refine ⟨le_refl n, ?_⟩
          dsimp only
          omega
        · have := ih (n + 1) q hr
          omega
      · simp only [Bool.false_eq_true, if_false, eq_self_iff_true, if_true] at hq ⊢
        have := ih n q hq
        omega

/-- The ids of the tracks the fresh-id loop creates are strictly
increasing. -/
theorem assignNewIds_new_sorted (ps : List (DetectedPerson × Bool)) :
    ∀ n : Int,
    (((assignNewIds n ps).2.1).map (fun p => p.id)).Pairwise (· < ·) := by
  induction ps with
  | nil => intro n; simp [assignNewIds]
  | cons p rest ih =>
    intro n
    rw [assignNewIds]
    cases p with
    | mk d matched =>
      cases matched
      · simp only [Bool.false_eq_true, if_false, eq_self_iff_true, if_true]
        rw [List.map_cons, List.pairwise_cons]
        refine ⟨?_, ih (n + 1)⟩
        intro x hx
        obtain ⟨q, hq, hqx⟩ := List.mem_map.mp hx
        have := assignNewIds_new_bounds rest (n + 1) q hq
        dsimp only
        omega
      · simp only [Bool.false_eq_true, if_false, eq_self_iff_true, if_true]
        exact ih n

/-- Every entry of the final detections vector either was marked matched by
the matching loop or received a fresh id from the counter window. -/
theorem assignNewIds_final (ps : List (DetectedPerson × Bool)) :
    ∀ (n : Int) (q : DetectedPerson), q ∈ (assignNewIds n ps).1 →
    (q, true) ∈ ps ∨ (n ≤ q.id ∧ q.id < (assignNewIds n ps).2.2) := by
  induction ps with
  | nil =>
    intro n q hq
    rw [assignNewIds] at hq
    simp at hq
  | cons p rest ih =>
    intro n q hq
    rw [assignNewIds] at hq
    rw [assignNewIds]
    cases p with
    | mk d matched =>
      cases matched
      · simp only [Bool.false_eq_true, if_false, eq_self_iff_true, if_true] at hq ⊢
        rcases List.mem_cons.mp hq with rfl | hr
        · have := assignNewIds_le rest (n + 1)
          refine Or.inr ⟨le_refl _, ?_⟩
          dsimp only
          omega
        · rcases ih (n + 1) q hr with hm | hb
          · exact Or.inl (List.mem_cons_of_mem _ hm)
          · exact Or.inr (by omega)
      · simp only [Bool.false_eq_true, if_false, eq_self_iff_true, if_true] at hq ⊢
        rcases List.mem_cons.mp hq with rfl | hr
        · exact Or.inl (List.mem_cons_self _ _)
        · rcases ih n q hr with hm | hb
          · exact Or.inl (List.mem_cons_of_mem _ hm)
          · exact Or.inr hb

/-- On an all-unmatched input (the first-frame path) the final detections
vector and the created-tracks list coincide. -/
theorem assignNewIds_all_false (ds : List DetectedPerson) :
    ∀ n : Int, (assignNewIds n (ds.map (fun d => (d, false)))).1 =
      (assignNewIds n (ds.map (fun d => (d, false)))).2.1 := by
  induction ds with
  | nil => intro n; rfl
  | cons d rest ih =>
    intro n
    rw [List.map_cons, assignNewIds]
    simp only [Bool.false_eq_true, if_false, eq_self_iff_true, if_true]
    rw [ih (n + 1)]

/-- The empty assignment is aligned with any track list. -/
theorem aligned_replicate (tracks : List DetectedPerson) :
    List.Forall₂ (fun o tr => ∀ d2, o = some d2 → d2.id = tr.id)
      (List.replicate tracks.length (none : Option DetectedPerson)) tracks := by
  induction tracks with
  | nil => exact List.Forall₂.nil
  | cons tr rest ih =>
    exact List.Forall₂.cons (fun d2 h => Option.noConfusion h) ih

/-- One update call preserves the tracker invariant, never decreases the id
counter, and gives every entry of the tick's output either the id of one of
the previous tracks or a fresh id from the counter window. -/
theorem update_spec (s : TrackerState) (ds : List DetectedPerson)
    (h : TrackerInv s) :
    TrackerInv (PersonTracker.update s ds).2 ∧
    s.nextId ≤ (PersonTracker.update s ds).2.nextId ∧
    ∀ q ∈ (PersonTracker.update s ds).1,
      q.id ∈ s.trackedPersons.map (fun p => p.id) ∨
      (s.nextId ≤ q.id ∧ q.id < (PersonTracker.update s ds).2.nextId) := by
  unfold PersonTracker.update
  by_cases he : s.trackedPersons = []
  · rw [if_pos he]
    dsimp only
    refine ⟨⟨?_, ?_⟩, ?_, ?_⟩
    · rw [assignNewIds_all_false]
      exact List.Pairwise.imp (fun hlt => ne_of_lt hlt)
        (assignNewIds_new_sorted _ s.nextId)
    · intro p hp
      rw [assignNewIds_all_false] at hp
      exact (assignNewIds_new_bounds _ s.nextId p hp).2
    · exact assignNewIds_le _ s.nextId
    · intro q hq
      rw [assignNewIds_all_false] at hq
      exact Or.inr (assignNewIds_new_bounds _ s.nextId q hq)
  · rw [if_neg he]
    dsimp only
    have haligned := runMatching_aligned s.trackedPersons ds
      (List.replicate s.trackedPersons.length none)
      (aligned_replicate s.trackedPersons)
    obtain ⟨hmnd, hmsub⟩ := aligned_filterMap_ids _ s.trackedPersons haligned h.1
    have hmlt : ∀ q ∈ (runMatching s.trackedPersons ds
        (List.replicate s.trackedPersons.length none)).2.filterMap id,
        q.id < s.nextId := by
      intro q hq
      obtain ⟨x, hx, hxq⟩ := List.mem_map.mp (hmsub q hq)
      rw [← hxq]
      exact h.2 x hx
    refine ⟨⟨?_, ?_⟩, ?_, ?_⟩
    · rw [List.map_append, List.pairwise_append]
      refine ⟨hmnd, List.Pairwise.imp (fun hlt => ne_of_lt hlt)
        (assignNewIds_new_sorted _ s.nextId), ?_⟩
      intro a ha b hb
      obtain ⟨qa, hqa, hqa2⟩ := List.mem_map.mp ha
      obtain ⟨qb, hqb, hqb2⟩ := List.mem_map.mp hb
      have h1 : a < s.nextId := hqa2 ▸ hmlt qa hqa
      have h2 : s.nextId ≤ b :=
        hqb2 ▸ (assignNewIds_new_bounds _ s.nextId qb hqb).1
      omega
    · intro p hp
      dsimp only at hp
      rcases List.mem_append.mp hp with hm | hn
      · have h1 : p.id < s.nextId := hmlt p hm
        have h2 := assignNewIds_le (runMatching s.trackedPersons ds
          (List.replicate s.trackedPersons.length none)).1 s.nextId
        dsimp only
        omega
      · exact (assignNewIds_new_bounds _ s.nextId p hn).2
    · exact assignNewIds_le _ s.nextId
    · intro q hq
      rcases assignNewIds_final _ s.nextId q hq with hm | hb
      · obtain ⟨tr, htr, hid⟩ := runMatching_matched_mem s.trackedPersons ds _ q hm
        exact Or.inl (hid ▸ List.mem_map_of_mem _ htr)
      · exact Or.inr hb

/-- Over a whole run the invariant is kept, the counter never decreases, and
every id ever output lies below the final counter. -/
theorem runTracker_bounds (dss : List (List DetectedPerson)) :
    ∀ s : TrackerState, TrackerInv s →
    TrackerInv (runTracker s dss).2 ∧
    s.nextId ≤ (runTracker s dss).2.nextId ∧
    ∀ x ∈ outputIds (runTracker s dss).1, x < (runTracker s dss).2.nextId := by
  induction dss with
  | nil =>
    intro s hs
    exact ⟨hs, le_refl _, by simp [outputIds, runTracker]⟩
  | cons ds rest ih =>
    intro s hs
    rw [runTracker]
    dsimp only
    obtain ⟨hinv1, hle1, hout1⟩ := update_spec s ds hs
    obtain ⟨hinv2, hle2, hout2⟩ := ih (PersonTracker.update s ds).2 hinv1
    refine ⟨hinv2, le_trans hle1 hle2, ?_⟩
    intro x hx
    rw [outputIds, List.flatten_cons, List.map_append] at hx
    rcases List.mem_append.mp hx with hx1 | hx2
    · obtain ⟨q, hq, hqx⟩ := List.mem_map.mp hx1
      rcases hout1 q hq with hmem | hb
      · obtain ⟨p, hp, hpx⟩ := List.mem_map.mp hmem
        have := hs.2 p hp
        omega
      · omega
    · exact hout2 x hx2

/-- Counterexample to C1 as stated: starting from one track with id 0 (box
10 by 10 at the origin), a tick with two detections both overlapping that
track by more than 0.3 ends with both detections carrying id 0 in the
caller's detections vector — the already-matched track was matched again by
the second detection, which overwrote the binding, so the tick's output
holds two distinct tracked persons with the same id. -/
theorem c1_counterexample :
    (PersonTracker.update (PersonTracker.update initialTracker
        [⟨-1, ⟨0, 0, 10, 10⟩⟩]).2
      [⟨-1, ⟨0, 0, 10, 10⟩⟩, ⟨-1, ⟨1, 0, 10, 10⟩⟩]).1 =
      [⟨0, ⟨0, 0, 10, 10⟩⟩, ⟨0, ⟨1, 0, 10, 10⟩⟩] ∧
    (PersonTracker.update (PersonTracker.update initialTracker
        [⟨-1, ⟨0, 0, 10, 10⟩⟩]).2
      [⟨-1, ⟨0, 0, 10, 10⟩⟩, ⟨-1, ⟨1, 0, 10, 10⟩⟩]).2.trackedPersons =
      [⟨0, ⟨1, 0, 10, 10⟩⟩] := by
  constructor <;>
    norm_num [PersonTracker.update, initialTracker, runMatching,
      matchDetection, matchDetectionAux, calculateIoU, assignNewIds,
      id_eq, List.filterMap_cons, List.filterMap_nil]

/-- Claim C1 (amended): the matching is not one-to-one — a later detection
whose IoU with an already-matched track exceeds the threshold rebinds that
track and both detections carry its id in the tick's in-place updated
output vector (see the counterexample) — but the tracker's internal
tracked-persons list after any sequence of update calls from a fresh
tracker never contains two entries with the same id. -/
theorem c1_tracked_ids_unique (dss : List (List DetectedPerson)) :
    (((runTracker initialTracker dss).2.trackedPersons.map
      (fun p => p.id)).Pairwise (· ≠ ·)) :=
  (runTracker_bounds dss initialTracker
    ⟨List.Pairwise.nil, fun p hp => absurd hp (List.not_mem_nil p)⟩).1.1

/-- Claim C8: once an id has been output by some earlier tick, any track
newly created later (an output entry whose id is not among the currently
tracked ids) receives a strictly greater id — dropped ids are never
reassigned. -/
theorem c8_ids_never_reused (dss : List (List DetectedPerson))
    (ds : List DetectedPerson) (x : Int) (q : DetectedPerson)
    (hx : x ∈ outputIds (runTracker initialTracker dss).1)
    (hq : q ∈ (PersonTracker.update (runTracker initialTracker dss).2 ds).1)
    (hnew : ¬ q.id ∈ (runTracker initialTracker dss).2.trackedPersons.map
      (fun p => p.id)) :
    x < q.id := by
  obtain ⟨hinv, -, hout⟩ := runTracker_bounds dss initialTracker
    ⟨List.Pairwise.nil, fun p hp => absurd hp (List.not_mem_nil p)⟩
  obtain ⟨-, -, hup⟩ := update_spec (runTracker initialTracker dss).2 ds hinv
  rcases hup q hq with hmem | hb
  · exact absurd hmem hnew
  · have := hout x hx
    omega

/-- Witness for C8: after the single track of the first tick (id 0) is
dropped on the empty second tick, a third tick's detection becomes a new
track with id 1, strictly greater than the dropped id 0. -/
theorem c8_ids_never_reused_witness :
    (0 : Int) ∈ outputIds (runTracker initialTracker droppedTrace).1 ∧
    (⟨1, standingBox⟩ : DetectedPerson) ∈
      (PersonTracker.update (runTracker initialTracker droppedTrace).2
        [⟨-1, standingBox⟩]).1 ∧
    ¬ (⟨1, standingBox⟩ : DetectedPerson).id ∈
      (runTracker initialTracker droppedTrace).2.trackedPersons.map
        (fun p => p.id) ∧
    (0 : Int) < (⟨1, standingBox⟩ : DetectedPerson).id :=
  ⟨by decide, by decide, by decide,
   c8_ids_never_reused droppedTrace [⟨-1, standingBox⟩] 0 ⟨1, standingBox⟩
     (by decide) (by decide) (by decide)⟩

end HMS
